import Mathlib

/-!
Verification of the PEANUT-AGENT gateway core against its specification.

Each section shallowly embeds one subsystem of the gateway source
(`services/gateway/src`) as executable Lean definitions and proves the
specified properties about them.  JavaScript `Date` values are modelled as
integer millisecond counts, JS `number` fields that the code validates as
integers are modelled as `Int`/`Nat`, and fractional quantities
(`temperature`, `successRate`) are modelled as `ℚ`.
-/

namespace PeanutAgent

/-- Domain error shape from `src/services/gateway/src/domain/errors.ts`:
every `DomainError` carries a `message`, a string `code` and an HTTP
`statusCode`. -/
structure DomainErrorData where
  message : String
  code : String
  statusCode : ℕ
deriving DecidableEq, Repr

/-- Constructor mirroring `UnauthorizedError` (`errors.ts`): code
`UNAUTHORIZED`, status 401. -/
def unauthorized (message : String) : DomainErrorData :=
  { message := message, code := "UNAUTHORIZED", statusCode := 401 }

/-- Constructor mirroring `ValidationError` (`errors.ts`): code
`VALIDATION_ERROR`, status 422. -/
def validationError (message : String) : DomainErrorData :=
  { message := message, code := "VALIDATION_ERROR", statusCode := 422 }

/-- Constructor mirroring `NotFoundError` (`errors.ts`). -/
def notFound (resource id : String) : DomainErrorData :=
  { message := resource ++ " with id " ++ id ++ " not found",
    code := "NOT_FOUND", statusCode := 404 }

/-! ## Agent health records (OpenClawService, `src/unnamed/part_015`) -/

/-- Agent status enumeration from `@peanut/shared-types` as used by
`OpenClawService`. -/
inductive AgentStatus where
  | online
  | offline
  | degraded
  | maintenance
deriving DecidableEq, Repr

/-- The `AgentHealthRecord` interface from
`src/services/gateway/src/domain/agent/agent.entity.ts`: one row per agent
in the `agent_health` table.  `lastCheckedAt` is a millisecond timestamp. -/
structure AgentHealthRecord where
  agentId : String
  status : AgentStatus
  latencyMs : Int
  successRate : ℚ
  requestCount : ℕ
  errorCount : ℕ
  lastCheckedAt : Int
  details : String
deriving DecidableEq, Repr

/-- The health row written by `OpenClawService.createAgent`
(`part_015`, lines 51-60): status `offline`, `successRate: 0`,
`requestCount: 0`, `errorCount: 0`. -/
def createAgentHealthRow (agentId : String) (ts : Int) : AgentHealthRecord :=
  { agentId := agentId, status := .offline, latencyMs := 0, successRate := 0,
    requestCount := 0, errorCount := 0, lastCheckedAt := ts,
    details := "Agent created, awaiting health check" }

/-- The health row written by the probe branch of
`OpenClawService.checkHealth` when the HTTP fetch completes
(`part_015`, lines 200-221): status depends on `resp.ok`, counts are
preserved from the existing row (or 0 when absent) and `successRate` is
recomputed as `(requestCount - errorCount) / requestCount` when
`requestCount > 0`, else 1. -/
def checkHealthProbeRow (agentId : String) (respOk : Bool) (respStatus : ℕ)
    (latencyMs : Int) (existing : Option AgentHealthRecord) (ts : Int) :
    AgentHealthRecord :=
  let st : AgentStatus := if respOk then .online else .degraded
  let rc : ℕ := match existing with | some h => h.requestCount | none => 0
  let ec : ℕ := match existing with | some h => h.errorCount | none => 0
  { agentId := agentId, status := st, latencyMs := latencyMs,
    successRate := if rc > 0 then ((rc : ℚ) - (ec : ℚ)) / (rc : ℚ) else 1,
    requestCount := rc, errorCount := ec, lastCheckedAt := ts,
    details := s!"HTTP {respStatus} in {latencyMs}ms" }

/-- The health row written by the network-failure (catch) branch of
`OpenClawService.checkHealth` (`part_015`, lines 223-231): status
`offline`, `successRate: 0`, `requestCount: 0`, `errorCount: 0`. -/
def checkHealthFailureRow (agentId : String) (latencyMs ts : Int) :
    AgentHealthRecord :=
  { agentId := agentId, status := .offline, latencyMs := latencyMs,
    successRate := 0, requestCount := 0, errorCount := 0,
    lastCheckedAt := ts, details := "Connection failed" }

/-- The health row written by `OpenClawService.updateAgentMetrics` after a
dispatch (`part_015`, lines 323-337): increments `requestCount`, increments
`errorCount` on failure, recomputes
`successRate = (requestCount - errorCount) / requestCount`. -/
def updateAgentMetricsRow (agentId : String) (success : Bool)
    (latencyMs : Int) (existing : Option AgentHealthRecord) (ts : Int) :
    AgentHealthRecord :=
  let rc : ℕ := (match existing with | some h => h.requestCount | none => 0) + 1
  let ec : ℕ := (match existing with | some h => h.errorCount | none => 0) +
    (if success then 0 else 1)
  { agentId := agentId, status := if success then .online else .degraded,
    latencyMs := latencyMs,
    successRate := ((rc : ℚ) - (ec : ℚ)) / (rc : ℚ),
    requestCount := rc, errorCount := ec, lastCheckedAt := ts,
    details := if success then s!"Last request: {latencyMs}ms"
      else "Last request failed" }

/-- The `AgentHealth` invariant stated in the specification (section 3):
`success_rate = (request_count - error_count) / request_count` when
`request_count > 0`, else 1.0. -/
def healthInvariant (h : AgentHealthRecord) : Prop :=
  if h.requestCount > 0 then
    h.successRate = ((h.requestCount : ℚ) - (h.errorCount : ℚ)) / (h.requestCount : ℚ)
  else
    h.successRate = 1

instance (h : AgentHealthRecord) : Decidable (healthInvariant h) := by
  unfold healthInvariant
  infer_instance

/-! ## Login (AuthService.login, `auth.service.ts` lines 52-115) -/

/-- User role enumeration from `@peanut/shared-types`. -/
inductive UserRole where
  | admin
  | operator
  | viewer
deriving DecidableEq, Repr

/-- The `UserProps` record from
`src/services/gateway/src/domain/auth/user.entity.ts`.  `Date` fields are
millisecond timestamps; nullable fields are `Option`. -/
structure GatewayUser where
  id : String
  email : String
  name : String
  passwordHash : String
  role : UserRole
  totpSecret : Option String
  totpEnabled : Bool
  backupCodes : List String
  createdAt : Int
  updatedAt : Int
  lastLoginAt : Option Int
deriving DecidableEq, Repr

/-- ASCII model of the JS `String.prototype.toLowerCase` used by the user
repository (emails in this system are ASCII-shaped). -/
def asciiToLower (s : String) : String :=
  ⟨s.data.map (fun c => if c.isUpper then Char.ofNat (c.toNat + 32) else c)⟩

/-- Lookup mirroring `SqliteUserRepository.findByEmail`
(`user.repository.ts` line 44): the stored email is matched against the
lowercased query (stored emails are lowercased on save). -/
def findByEmail (users : List GatewayUser) (email : String) :
    Option GatewayUser :=
  users.find? (fun u => u.email == asciiToLower email)

/-- The temp-token payload minted by `AuthService.generateTempToken`
(`auth.service.ts` lines 207-215).  The code base64url-encodes
`JSON.stringify` of this object; base64url decoding plus `JSON.parse` is
modelled as the transparent inverse, so a token is represented by its
decoded payload (`none` standing for a string that does not decode to a
JSON object).  Fields absent from a forged JSON object are `none`. -/
structure TempPayload where
  sub : Option String
  exp : Option Int
  nonce : Option String
deriving DecidableEq, Repr

/-- Mirrors `AuthService.generateTempToken`: payload
`{sub: userId, exp: now + 10 * 60 * 1000, nonce}` (the nonce is 8 random
bytes rendered as hex; it is passed in here). -/
def generateTempToken (userId : String) (now : Int) (nonce : String) :
    TempPayload :=
  { sub := some userId, exp := some (now + 10 * 60 * 1000),
    nonce := some nonce }

/-- Mirrors `AuthService.validateTempToken` (`auth.service.ts` lines
217-230).  A string that fails to decode/parse is `none` and is rejected.
For a parsed payload the only check performed is `payload.exp < Date.now()`
(in JS a missing `exp` makes this comparison false, so the token is
accepted); no signature or authenticity check exists.  The expired branch
throws inside the `try`, so the catch rewrites every rejection to the same
`Invalid temp token` UNAUTHORIZED error. -/
def validateTempToken (token : Option TempPayload) (now : Int) :
    Except DomainErrorData (Option String) :=
  match token with
  | none => .error (unauthorized "Invalid temp token")
  | some p =>
    match p.exp with
    | some e =>
      if e < now then .error (unauthorized "Invalid temp token")
      else .ok p.sub
    | none => .ok p.sub

/-- Successful login response shape (`LoginResponse` plus `userId`), as
returned by `AuthService.login`. -/
structure LoginOk where
  requireTotp : Bool
  tempToken : Option TempPayload
  userId : String
deriving DecidableEq, Repr

/-- Mirrors `AuthService.login` (`auth.service.ts` lines 52-115) as seen by
the client: the returned value or thrown `DomainError`.  `verify` stands
for `CryptoService.verifyPassword`.  The audit entries written on the two
failure paths differ in their internal `details.reason`; they are not part
of the HTTP response and are omitted here. -/
def loginModel (verify : String → String → Bool) (users : List GatewayUser)
    (email password : String) (now : Int) (nonce : String) :
    Except DomainErrorData LoginOk :=
  match findByEmail users email with
  | none => .error (unauthorized "Invalid email or password")
  | some u =>
    if verify password u.passwordHash then
      if u.totpEnabled then
        .ok { requireTotp := true,
              tempToken := some (generateTempToken u.id now nonce),
              userId := u.id }
      else
        .ok { requireTotp := false, tempToken := none, userId := u.id }
    else .error (unauthorized "Invalid email or password")

/-! ## CryptoService password verification (`crypto.service.ts` lines 18-30) -/

/-- Helper for `splitOnChar`: prepend a character to the first group. -/
def consHead (c : Char) : List (List Char) → List (List Char)
  | [] => [[c]]
  | g :: gs => (c :: g) :: gs

/-- JS `s.split(sep)` for a single-character separator, over the character
list of the string: splits at every occurrence, keeping empty groups. -/
def splitOnChar (sep : Char) : List Char → List (List Char)
  | [] => [[]]
  | c :: rest =>
    if c = sep then [] :: splitOnChar sep rest
    else consHead c (splitOnChar sep rest)

/-- JS `stored.split(":")` as used by `verifyPassword` and
`decryptAES256`. -/
def splitColon (s : String) : List String :=
  (splitOnChar ':' s.data).map (fun cs => ⟨cs⟩)

/-- Value of one hex digit, lowercase or uppercase, as accepted by Node
`Buffer.from(_, "hex")`. -/
def hexVal (c : Char) : Option ℕ :=
  if '0' ≤ c ∧ c ≤ '9' then some (c.toNat - 48)
  else if 'a' ≤ c ∧ c ≤ 'f' then some (c.toNat - 87)
  else if 'A' ≤ c ∧ c ≤ 'F' then some (c.toNat - 55)
  else none

/-- Helper for `hexDecode`: combine one decoded pair with the decoded
tail, or stop on an invalid digit. -/
def hexPair (a? b? : Option ℕ) (rest : List ℕ) : List ℕ :=
  match a?, b? with
  | some a, some b => (16 * a + b) :: rest
  | _, _ => []

/-- Node `Buffer.from(s, "hex")`: decodes two-character pairs into bytes,
stopping at the first invalid or incomplete pair. -/
def hexDecode : List Char → List ℕ
  | c1 :: c2 :: rest => hexPair (hexVal c1) (hexVal c2) (hexDecode rest)
  | _ => []

/-- The constant-time comparison loop of `verifyPassword`: fold bitwise OR
over the bytewise XOR of the two equal-length buffers. -/
def xorDiff (a b : List ℕ) : ℕ :=
  (List.zipWith (fun x y => Nat.xor x y) a b).foldl (fun d x => d ||| x) 0

/-- Mirrors `CryptoService.verifyPassword` (`crypto.service.ts` lines
18-30).  `kdf password salt` stands for `scryptAsync(password, salt, 64)`,
which for string arguments always yields a 64-byte buffer and does not
throw; the embedding therefore shows the whole function total.  The JS
falsy check `!salt || !hash` rejects both a missing component (fewer than
two `:`-groups) and an empty one. -/
def verifyPassword (kdf : String → String → List ℕ)
    (password stored : String) : Bool :=
  match splitColon stored with
  | salt :: hash :: _ =>
    if salt = "" ∨ hash = "" then false
    else
      let hashBuffer := kdf password salt
      let storedBuffer := hexDecode hash.data
      if hashBuffer.length ≠ storedBuffer.length then false
      else xorDiff hashBuffer storedBuffer == 0
  | _ => false

/-! ## Audit chain (`audit.entity` section of `domain/errors.ts`, `AuditService.log`, `SqliteAuditRepository`)

The SHA-256 digest is abstracted as a type `D` together with a function
`sha256 : AuditCanon D → D` standing for the composite
`SHA-256 ∘ JSON.stringify` of `computeFingerprint`: `JSON.stringify` with
this fixed key order and `Date.prototype.toISOString` are injective on the
modelled fields, so collision-freedom of the composite is modelled as
(pointwise) injectivity of `sha256`.  The `previousFingerprint` column is
`Option D`, with `none` standing for the literal `"GENESIS"` (a 64-hex
digest never equals that literal).  The `details` record is carried as its
serialized JSON text. -/

/-- The canonical pre-image serialized by `AuditEntry.computeFingerprint`
(`errors.ts` lines 207-221): exactly the eight fields
`{id, action, userId, resourceType, resourceId, details,
previousFingerprint, timestamp}` — `userEmail`, `ipAddress` and
`userAgent` are not part of it. -/
structure AuditCanon (D : Type) where
  id : String
  action : String
  userId : String
  resourceType : String
  resourceId : String
  details : String
  previousFingerprint : Option D
  timestamp : Int
deriving DecidableEq, Repr

/-- The `AuditEntryProps` record (`errors.ts` lines 172-185), as persisted
in the `audit_log` table. -/
structure AuditEntryProps (D : Type) where
  id : String
  action : String
  userId : String
  userEmail : String
  ipAddress : String
  userAgent : String
  resourceType : String
  resourceId : String
  details : String
  fingerprint : D
  previousFingerprint : Option D
  timestamp : Int
deriving DecidableEq, Repr

/-- Projection of a persisted entry onto the canonical pre-image used by
`computeFingerprint` and `recomputeAndVerify`. -/
def canonOf {D : Type} (e : AuditEntryProps D) : AuditCanon D :=
  { id := e.id, action := e.action, userId := e.userId,
    resourceType := e.resourceType, resourceId := e.resourceId,
    details := e.details, previousFingerprint := e.previousFingerprint,
    timestamp := e.timestamp }

/-- Mirrors `AuditEntry.computeFingerprint`: hash of the canonical
serialization of the eight covered fields. -/
def computeFingerprint {D : Type} (sha256 : AuditCanon D → D)
    (e : AuditEntryProps D) : D :=
  sha256 (canonOf e)

/-- Mirrors `AuditEntry.recomputeAndVerify` (`errors.ts` lines 227-242):
recompute the fingerprint from the persisted fields and compare with the
stored one. -/
def recomputeAndVerify {D : Type} [DecidableEq D]
    (sha256 : AuditCanon D → D) (e : AuditEntryProps D) : Bool :=
  computeFingerprint sha256 e == e.fingerprint

/-- The caller-supplied part of one `AuditService.log` call
(`LogAuditParams`, `audit.service.ts` lines 7-16). -/
structure AuditLogParams where
  action : String
  userId : String
  userEmail : String
  ipAddress : String
  userAgent : String
  resourceType : String
  resourceId : String
  details : String
deriving DecidableEq, Repr

/-- Mirrors `AuditEntry.create` (`errors.ts` lines 190-201): stamps the
entry and computes its fingerprint over the canonical fields including the
supplied `previousFingerprint`. -/
def AuditEntry.create {D : Type} (sha256 : AuditCanon D → D) (id : String)
    (p : AuditLogParams) (previousFingerprint : Option D) (ts : Int) :
    AuditEntryProps D :=
  { id := id, action := p.action, userId := p.userId,
    userEmail := p.userEmail, ipAddress := p.ipAddress,
    userAgent := p.userAgent, resourceType := p.resourceType,
    resourceId := p.resourceId, details := p.details,
    fingerprint := sha256
      { id := id, action := p.action, userId := p.userId,
        resourceType := p.resourceType, resourceId := p.resourceId,
        details := p.details, previousFingerprint := previousFingerprint,
        timestamp := ts },
    previousFingerprint := previousFingerprint, timestamp := ts }

/-- The row selected by `SELECT fingerprint FROM audit_log ORDER BY
timestamp DESC LIMIT 1` (`SqliteAuditRepository.findLatestFingerprint`,
`part_011` lines 44-49): an entry of maximal `timestamp`.  The log list is
kept in insertion order. -/
def latestEntry {D : Type} : List (AuditEntryProps D) →
    Option (AuditEntryProps D)
  | [] => none
  | e :: rest =>
    match latestEntry rest with
    | none => some e
    | some b => if b.timestamp > e.timestamp then some b else some e

/-- Mirrors `findLatestFingerprint`: the fingerprint of the most recent
entry, or `none` (the literal `"GENESIS"`) for an empty log. -/
def findLatestFingerprint {D : Type} (log : List (AuditEntryProps D)) :
    Option D :=
  (latestEntry log).map (fun e => e.fingerprint)

/-- Mirrors `AuditService.log` (`audit.service.ts` lines 21-39): read the
most recent fingerprint, create the linked entry, insert it. -/
def auditLog {D : Type} (sha256 : AuditCanon D → D)
    (log : List (AuditEntryProps D)) (id : String) (p : AuditLogParams)
    (ts : Int) : List (AuditEntryProps D) :=
  log ++ [AuditEntry.create sha256 id p (findLatestFingerprint log) ts]

/-- One `AuditService.log` call: fresh random id, parameters, and the
`Date.now()` wall-clock timestamp of the call. -/
structure AuditCall where
  id : String
  params : AuditLogParams
  ts : Int
deriving DecidableEq, Repr

/-- A sequence of `AuditService.log` calls executed against an initially
empty `audit_log` table. -/
def auditRun {D : Type} (sha256 : AuditCanon D → D)
    (calls : List AuditCall) : List (AuditEntryProps D) :=
  calls.foldl (fun acc c => auditLog sha256 acc c.id c.params c.ts) []

/-- Hash-chain shape of a log segment given the fingerprint expected at
its head: the first entry links to `prev` and every further entry links to
its predecessor. -/
def chainedFrom {D : Type} (prev : Option D) :
    List (AuditEntryProps D) → Prop
  | [] => True
  | e :: rest => e.previousFingerprint = prev
      ∧ chainedFrom (some e.fingerprint) rest

/-- Fingerprint at the end of a log segment, or the inherited `prev` when
the segment is empty. -/
def endFingerprint {D : Type} (prev : Option D)
    (log : List (AuditEntryProps D)) : Option D :=
  match log.getLast? with
  | some e => some e.fingerprint
  | none => prev

/-- Concrete digest domain for witnesses and counterexamples: a
non-degenerate stand-in hash mixing several canonical fields. -/
def shaDemo (c : AuditCanon ℕ) : ℕ :=
  c.id.length + 3 * c.details.length + 5 * c.action.length
    + 7 * c.timestamp.natAbs
    + (match c.previousFingerprint with | none => 11 | some d => 13 + d)

/-- Concrete audit parameters used by the C2 counterexample. -/
def demoParams : AuditLogParams :=
  { action := "auth.login", userId := "u-1",
    userEmail := "ops@peanut.local", ipAddress := "10.0.0.5",
    userAgent := "Mozilla/5.0", resourceType := "user",
    resourceId := "u-1", details := "{}" }

/-- Entry created by the audit service for `demoParams`. -/
def demoEntry : AuditEntryProps ℕ :=
  AuditEntry.create shaDemo "aaaa1111" demoParams none 1700000000000

/-- The same persisted row after an out-of-band edit of the three
non-canonical actor fields. -/
def tamperedDemoEntry : AuditEntryProps ℕ :=
  { demoEntry with
    userEmail := "evil@attacker.example",
    ipAddress := "203.0.113.66",
    userAgent := "curl/8.0" }

/-! ## CryptoService AES-256-GCM (`crypto.service.ts` lines 32-51)

Plaintexts are byte lists (the UTF-8 encoding of the JS string; the
encoding is injective and empty iff the string is empty).  The AES-256-GCM
primitive from Node `crypto` is abstracted as a structure bundling the
cipher, tag and decipher functions with the properties the library
guarantees for the keys it accepts: `aes-256-gcm` requires exactly a
32-byte key (`createCipheriv`/`createDecipheriv` throw `Invalid key
length` otherwise, which the embedding checks explicitly before invoking
the primitive); for an accepted key, GCM is a counter-mode stream cipher,
so ciphertext length equals plaintext length; the auth tag has 16 bytes;
and deciphering with the same key, 16-byte IV and tag inverts
enciphering. -/

/-- Lowercase hex character of a nibble, as produced by Node
`buf.toString("hex")`. -/
def hexDigit (n : ℕ) : Char :=
  if n < 10 then Char.ofNat (48 + n) else Char.ofNat (87 + n)

/-- Node `buf.toString("hex")` over a byte list. -/
def hexEncode : List ℕ → List Char
  | [] => []
  | b :: rest => hexDigit (b / 16) :: hexDigit (b % 16) :: hexEncode rest

/-- Abstract AES-256-GCM primitive (`createCipheriv` /
`createDecipheriv` with algorithm `aes-256-gcm`).  The library contract
fields are assumed only for keys the algorithm accepts (exactly 32
bytes); the embedding of `encryptAES256` / `decryptAES256` below checks
the derived key length before invoking the primitive, mirroring the
`Invalid key length` throw of `createCipheriv` / `createDecipheriv`. -/
structure GCMCipher where
  enc : List ℕ → List ℕ → List ℕ → List ℕ
  tag : List ℕ → List ℕ → List ℕ → List ℕ
  dec : List ℕ → List ℕ → List ℕ → List ℕ → Option (List ℕ)
  enc_length : ∀ k iv m, k.length = 32 → (enc k iv m).length = m.length
  enc_bytes : ∀ k iv m, k.length = 32 →
    (∀ b ∈ m, b < 256) → ∀ b ∈ enc k iv m, b < 256
  tag_length : ∀ k iv m, k.length = 32 → (tag k iv m).length = 16
  tag_bytes : ∀ k iv m, k.length = 32 → ∀ b ∈ tag k iv m, b < 256
  dec_enc : ∀ k iv m, k.length = 32 → iv.length = 16 →
    dec k iv (tag k iv m) (enc k iv m) = some m

/-- JS `keyHex.padEnd(64, "0").slice(0, 64)` followed by
`Buffer.from(_, "hex")`: the deterministic 32-byte key derivation of
`CryptoService` (`AES_KEY_LENGTH * 2 = 64`). -/
def deriveAesKey (keyHex : String) : List ℕ :=
  hexDecode ((keyHex.data ++ List.replicate (64 - keyHex.data.length) '0').take 64)

/-- The stored string built by `encryptAES256` once `createCipheriv` has
accepted the derived key: encrypt under the derived key and the supplied
random 16-byte IV, and store `iv_hex:tag_hex:ciphertext_hex`. -/
def encryptedStore (g : GCMCipher) (plaintext : List ℕ) (keyHex : String)
    (iv : List ℕ) : String :=
  let key := deriveAesKey keyHex
  let encrypted := g.enc key iv plaintext
  let authTag := g.tag key iv plaintext
  ⟨hexEncode iv ++ ':' :: hexEncode authTag ++ ':' :: hexEncode encrypted⟩

/-- Mirrors `CryptoService.encryptAES256` (`crypto.service.ts` lines
32-39): derive the key; `createCipheriv("aes-256-gcm", key, iv)` throws
`Invalid key length` unless the derived key has exactly 32 bytes (hex
decoding stops at the first non-hex pair, so a `keyHex` whose first 64
padded characters are not all hex digits derives a short key); otherwise
encrypt and store `iv_hex:tag_hex:ciphertext_hex`. -/
def encryptAES256 (g : GCMCipher) (plaintext : List ℕ) (keyHex : String)
    (iv : List ℕ) : Except String String :=
  if (deriveAesKey keyHex).length = 32 then
    .ok (encryptedStore g plaintext keyHex iv)
  else .error "Invalid key length"

/-- Body of `decryptAES256` once the three `:`-separated components have
been destructured: the JS falsy test `!ivHex || !authTagHex ||
!encryptedHex` rejects both missing and empty components with
`Invalid ciphertext format`; then the key is derived —
`createDecipheriv` raising `Invalid key length` unless it has 32 bytes —
the components are hex-decoded and deciphered, tag verification failure
raising the Node GCM authentication error. -/
def decryptParts (g : GCMCipher) (keyHex ivHex authTagHex encryptedHex : String) :
    Except String (List ℕ) :=
  if ivHex = "" ∨ authTagHex = "" ∨ encryptedHex = "" then
    .error "Invalid ciphertext format"
  else if (deriveAesKey keyHex).length ≠ 32 then
    .error "Invalid key length"
  else
    match g.dec (deriveAesKey keyHex) (hexDecode ivHex.data)
        (hexDecode authTagHex.data) (hexDecode encryptedHex.data) with
    | some m => .ok m
    | none => .error "Unsupported state or unable to authenticate data"

/-- Mirrors `CryptoService.decryptAES256` (`crypto.service.ts` lines
41-51): destructure `iv_hex:tag_hex:ciphertext_hex` (JS array
destructuring takes the first three groups and yields `undefined`, hence
falsy, for missing ones) and process the parts. -/
def decryptAES256 (g : GCMCipher) (ciphertext : String) (keyHex : String) :
    Except String (List ℕ) :=
  match splitColon ciphertext with
  | ivHex :: authTagHex :: encryptedHex :: _ =>
    decryptParts g keyHex ivHex authTagHex encryptedHex
  | _ => .error "Invalid ciphertext format"

/-- Trivial concrete instance of the abstract GCM primitive, used to state
closed witnesses and counterexamples about the surrounding store/parse
logic (which never depends on the cipher internals). -/
def gcmTriv : GCMCipher where
  enc := fun _ _ m => m
  tag := fun _ _ _ => List.replicate 16 0
  dec := fun _ _ _ ct => some ct
  enc_length := fun _ _ _ _ => rfl
  enc_bytes := fun _ _ _ _ h => h
  tag_length := fun _ _ _ _ => by simp
  tag_bytes := fun _ _ _ _ b hb => by
    rw [List.eq_of_mem_replicate hb]
    omega
  dec_enc := fun _ _ _ _ _ => rfl

/-! ## Rate limiter (`RateLimitService.check`, `rate-limit.service.ts` lines 102-143)

Wall-clock instants are millisecond counts (`Date.now()`).  The
`rate_limit_windows` table is a list of rows in insertion order; the
`window_start` column is an ISO string in the store, whose lexicographic
order coincides with the numeric millisecond order modelled here. -/

/-- The `RateLimitConfig` policy record. -/
structure RateLimitConfig where
  maxRequests : ℕ
  windowMs : ℕ
  exponentialBackoff : Bool
  maxBackoffMs : ℕ
deriving DecidableEq, Repr

/-- One row of `rate_limit_windows`: the stored `key` column holds the
interpolated `windowKey` string, `windowStart` the window-start instant. -/
structure RateLimitRow where
  key : String
  windowStart : ℕ
  count : ℕ
deriving DecidableEq, Repr

/-- Rate-limiter store state. -/
abbrev RateLimitState := List RateLimitRow

/-- Mirrors `SELECT count FROM rate_limit_windows WHERE key = ? AND
window_start = ?`. -/
def rlLookup (st : RateLimitState) (k : String) (ws : ℕ) : Option ℕ :=
  (st.find? (fun r => r.key == k && r.windowStart == ws)).map (fun r => r.count)

/-- Mirrors `INSERT INTO rate_limit_windows ... VALUES (?, ?, c) ON
CONFLICT(key, window_start) DO UPDATE SET count = count + 1`. -/
def rlUpsert (st : RateLimitState) (k : String) (ws : ℕ) (insertCount : ℕ) :
    RateLimitState :=
  if (st.find? (fun r => r.key == k && r.windowStart == ws)).isSome then
    st.map (fun r =>
      if r.key == k && r.windowStart == ws then
        { r with count := r.count + 1 }
      else r)
  else st ++ [{ key := k, windowStart := ws, count := insertCount }]

/-- Mirrors `DELETE FROM rate_limit_windows WHERE window_start < ?` with
cutoff `now - windowMs * 10` (an integer, negative at small clock
values). -/
def rlPrune (st : RateLimitState) (cutoff : Int) : RateLimitState :=
  st.filter (fun r => ¬ (r.windowStart : Int) < cutoff)

/-- Successful result shape of `RateLimitService.check`. -/
structure RateLimitResult where
  remaining : ℕ
  resetAt : ℕ
  limit : ℕ
deriving DecidableEq, Repr

/-- Mirrors `RateLimitService.check` for one key at instant `now`:
returns the result or raises `RateLimitError(retryAfterSeconds)`
(modelled as the `Except` error), together with the updated store.  The
Nat subtraction `maxRequests - count` coincides with the JS
`Math.max(0, maxRequests - count)`. -/
def rateLimitCheck (cfg : RateLimitConfig) (key : String) (now : ℕ)
    (st : RateLimitState) : Except ℕ RateLimitResult × RateLimitState :=
  let windowStart := now / cfg.windowMs * cfg.windowMs
  let windowKey := key ++ ":" ++ toString windowStart
  let st₁ := rlPrune st ((now : Int) - cfg.windowMs * 10)
  let count := (rlLookup st₁ windowKey windowStart).getD 0 + 1
  let remaining := cfg.maxRequests - count
  let resetAt := windowStart + cfg.windowMs
  if count > cfg.maxRequests then
    let retryAfter :=
      if cfg.exponentialBackoff then
        min cfg.maxBackoffMs
          (cfg.windowMs * 2 ^ ((count - cfg.maxRequests) / 10))
      else cfg.windowMs
    (.error ((retryAfter + 999) / 1000), rlUpsert st₁ windowKey windowStart count)
  else
    (.ok { remaining := remaining, resetAt := resetAt, limit := cfg.maxRequests },
     rlUpsert st₁ windowKey windowStart 1)

/-- A sequence of `check` calls on one key at the given instants,
threading the store and recording each outcome. -/
def rateLimitTrace (cfg : RateLimitConfig) (key : String) :
    List ℕ → RateLimitState →
    List (Except ℕ RateLimitResult) × RateLimitState
  | [], st => ([], st)
  | t :: ts, st =>
    let step := rateLimitCheck cfg key t st
    let rest := rateLimitTrace cfg key ts step.2
    (step.1 :: rest.1, rest.2)

/-- The single row describing the counter of window `q` after some calls. -/
def rlRow (cfg : RateLimitConfig) (key : String) (q c : ℕ) : RateLimitRow :=
  { key := key ++ ":" ++ toString (q * cfg.windowMs),
    windowStart := q * cfg.windowMs, count := c }

/-- Outcome of the `n`-th call (1-based count value `n`) inside window
`q`, as computed by `rateLimitCheck`. -/
def rlExpected (cfg : RateLimitConfig) (q n : ℕ) : Except ℕ RateLimitResult :=
  if n > cfg.maxRequests then
    .error (((if cfg.exponentialBackoff then
        min cfg.maxBackoffMs (cfg.windowMs * 2 ^ ((n - cfg.maxRequests) / 10))
      else cfg.windowMs) + 999) / 1000)
  else
    .ok { remaining := cfg.maxRequests - n,
          resetAt := q * cfg.windowMs + cfg.windowMs,
          limit := cfg.maxRequests }

/-! ## Agent validation (`Agent.validate` in `domain/errors.ts` lines
99-118, `createAgentSchema` / `updateAgentSchema` in `agents.routes.ts`
lines 6-19, ZodError mapping in the global error handler of `part_012`
lines 379-389)

An HTTP create goes through the zod schema first (a `ZodError` is mapped
to a 422 `VALIDATION_ERROR` envelope by the global error handler), then
through `Agent.create`, whose `Agent.validate` throws `ValidationError`
(also `VALIDATION_ERROR`, 422).  Numeric fields that zod validates with
`.int()` are modelled as `Int`; `temperature` is a `ℚ`.

The `.url()` refinement of `createAgentSchema.endpoint` passes iff the
WHATWG `new URL` constructor of the host platform accepts the string.
Like the SHA-256, scrypt and AES primitives, that parser is platform
code, not code of this repository, and its full algorithm (special-scheme
slash forgiveness, userinfo and host validation, IDNA) is not
re-implemented here: it enters the embedding as an abstract oracle
`urlOk : String → Bool` threaded through the schema and route
definitions, and concrete demonstrations use `urlOkDemo` below, the
restriction of the real constructor's verdict to the endpoint strings
they mention. -/

/-- The agent `type` enumeration of `createAgentSchema`. -/
inductive AgentType where
  | ollama
  | kilo
  | openai
  | anthropic
  | custom
deriving DecidableEq, Repr

/-- Full agent configuration as passed to `Agent.create` (id, timestamps
and free-form `metadata` omitted: they take no part in validation). -/
structure AgentConfig where
  name : String
  type : AgentType
  endpoint : String
  model : String
  maxTokens : Int
  temperature : ℚ
  priority : Int
  weight : Int
  tags : List String
deriving DecidableEq, Repr

/-- `POST /agents` request body (`CreateAgentDto`): optional fields
default in `OpenClawService.createAgent` to 4096 / 0.0 / 5 / 10 / `[]`. -/
structure CreateAgentDto where
  name : String
  type : AgentType
  endpoint : String
  model : String
  maxTokens : Option Int
  temperature : Option ℚ
  priority : Option Int
  weight : Option Int
  tags : Option (List String)
deriving DecidableEq, Repr

/-- `PUT /agents/:id` request body (`UpdateAgentDto` =
`createAgentSchema.partial().omit(type)`). -/
structure UpdateAgentDto where
  name : Option String
  endpoint : Option String
  model : Option String
  maxTokens : Option Int
  temperature : Option ℚ
  priority : Option Int
  weight : Option Int
  tags : Option (List String)
deriving DecidableEq, Repr

/-- JS whitespace test for the characters relevant to `String.prototype.trim`
(ASCII subset). -/
def isJsWs (c : Char) : Bool :=
  c = ' ' || c = '\t' || c = '\n' || c = '\r'

/-- ASCII model of JS `String.prototype.trim`. -/
def jsTrim (s : String) : String :=
  ⟨((s.data.dropWhile isJsWs).reverse.dropWhile isJsWs).reverse⟩

/-- Mirrors JS `s.startsWith(p)` on character lists. -/
def leadingMatch : List Char → List Char → Bool
  | _, [] => true
  | [], _ :: _ => false
  | a :: as, b :: bs => a == b && leadingMatch as bs

/-- Split at the first `:`: scheme characters and the remainder.  Per
the WHATWG URL standard, a parsed URL's scheme is exactly the characters
of the input before its first `:`. -/
def schemeSplit : List Char → Option (List Char × List Char)
  | [] => none
  | c :: rest =>
    if c = ':' then some ([], rest)
    else
      match schemeSplit rest with
      | some (a, b) => some (c :: a, b)
      | none => none

/-- Claim-side predicate, following the words of the specification: the
endpoint parses as a URL (i.e. the WHATWG parsing oracle `urlOk` accepts
it, see the section comment) and its scheme is `http` or `https`. -/
def isHttpUrl (urlOk : String → Bool) (s : String) : Bool :=
  urlOk s &&
  (match schemeSplit s.data with
   | some (scheme, _) =>
     asciiToLower ⟨scheme⟩ = "http" || asciiToLower ⟨scheme⟩ = "https"
   | none => false)

/-- Optional-field check of a partial zod schema: absent fields pass. -/
def optOk {α : Type} (o : Option α) (p : α → Prop) : Prop :=
  match o with
  | none => True
  | some v => p v

instance {α : Type} (o : Option α) (p : α → Prop) [DecidablePred p] :
    Decidable (optOk o p) := by
  unfold optOk
  cases o <;> infer_instance

/-- Mirrors `createAgentSchema.parse` succeeding (`agents.routes.ts`
lines 6-17). -/
def zodCreateOk (urlOk : String → Bool) (d : CreateAgentDto) : Prop :=
  2 ≤ d.name.length ∧ d.name.length ≤ 64
  ∧ urlOk d.endpoint = true
  ∧ 1 ≤ d.model.length
  ∧ optOk d.maxTokens (fun v => 1 ≤ v ∧ v ≤ 200000)
  ∧ optOk d.temperature (fun v => 0 ≤ v ∧ v ≤ 2)
  ∧ optOk d.priority (fun v => 1 ≤ v ∧ v ≤ 10)
  ∧ optOk d.weight (fun v => 1 ≤ v ∧ v ≤ 100)

instance (urlOk : String → Bool) (d : CreateAgentDto) :
    Decidable (zodCreateOk urlOk d) := by
  unfold zodCreateOk
  infer_instance

/-- Mirrors `updateAgentSchema.parse` succeeding (partial schema, no
`type`). -/
def zodUpdateOk (urlOk : String → Bool) (d : UpdateAgentDto) : Prop :=
  optOk d.name (fun v => 2 ≤ v.length ∧ v.length ≤ 64)
  ∧ optOk d.endpoint (fun v => urlOk v = true)
  ∧ optOk d.model (fun v => 1 ≤ v.length)
  ∧ optOk d.maxTokens (fun v => 1 ≤ v ∧ v ≤ 200000)
  ∧ optOk d.temperature (fun v => 0 ≤ v ∧ v ≤ 2)
  ∧ optOk d.priority (fun v => 1 ≤ v ∧ v ≤ 10)
  ∧ optOk d.weight (fun v => 1 ≤ v ∧ v ≤ 100)

instance (urlOk : String → Bool) (d : UpdateAgentDto) :
    Decidable (zodUpdateOk urlOk d) := by
  unfold zodUpdateOk
  infer_instance

/-- Mirrors `Agent.validate` (`errors.ts` lines 99-118): note that it
checks neither a name maximum length nor `maxTokens`, and its endpoint
test is only the falsy check plus `startsWith("http")`. -/
def agentValidate (c : AgentConfig) : Except DomainErrorData Unit :=
  if c.name = "" ∨ (jsTrim c.name).length < 2 then
    .error (validationError "Agent name must be at least 2 characters")
  else if c.endpoint = "" ∨ leadingMatch c.endpoint.data "http".data = false then
    .error (validationError "Agent endpoint must be a valid HTTP/HTTPS URL")
  else if c.model = "" ∨ (jsTrim c.model).length = 0 then
    .error (validationError "Agent model is required")
  else if c.temperature < 0 ∨ c.temperature > 2 then
    .error (validationError "Temperature must be between 0 and 2")
  else if c.weight < 1 ∨ c.weight > 100 then
    .error (validationError "Weight must be between 1 and 100")
  else if c.priority < 1 ∨ c.priority > 10 then
    .error (validationError "Priority must be between 1 and 10")
  else .ok ()

/-- Defaults applied by `OpenClawService.createAgent` (`part_015` lines
35-48). -/
def applyCreateDefaults (d : CreateAgentDto) : AgentConfig :=
  { name := d.name, type := d.type, endpoint := d.endpoint,
    model := d.model, maxTokens := d.maxTokens.getD 4096,
    temperature := d.temperature.getD 0, priority := d.priority.getD 5,
    weight := d.weight.getD 10, tags := d.tags.getD [] }

/-- Merge applied by `OpenClawService.updateAgent` plus `Agent.update`
(`part_015` lines 77-107, `errors.ts` lines 120-124): supplied fields
replace existing ones, `type` cannot change. -/
def applyUpdate (a : AgentConfig) (d : UpdateAgentDto) : AgentConfig :=
  { name := d.name.getD a.name, type := a.type,
    endpoint := d.endpoint.getD a.endpoint, model := d.model.getD a.model,
    maxTokens := d.maxTokens.getD a.maxTokens,
    temperature := d.temperature.getD a.temperature,
    priority := d.priority.getD a.priority,
    weight := d.weight.getD a.weight, tags := d.tags.getD a.tags }

/-- The observable outcome of `POST /agents`: zod parse (ZodError mapped
to a `VALIDATION_ERROR` envelope with message `Validation failed` by the
global error handler), then `Agent.create` with its `ValidationError`; on
success the created configuration. -/
def createAgentRoute (urlOk : String → Bool) (d : CreateAgentDto) :
    Except DomainErrorData AgentConfig :=
  if zodCreateOk urlOk d then
    match agentValidate (applyCreateDefaults d) with
    | .error e => .error e
    | .ok _ => .ok (applyCreateDefaults d)
  else .error (validationError "Validation failed")

/-- The observable outcome of `PUT /agents/:id` for an existing agent
configuration `a`. -/
def updateAgentRoute (urlOk : String → Bool) (a : AgentConfig)
    (d : UpdateAgentDto) : Except DomainErrorData AgentConfig :=
  if zodUpdateOk urlOk d then
    match agentValidate (applyUpdate a d) with
    | .error e => .error e
    | .ok _ => .ok (applyUpdate a d)
  else .error (validationError "Validation failed")

/-- Demonstration user for the C9 witness. -/
def demoUser : GatewayUser :=
  { id := "u-1", email := "ops@peanut.local", name := "Ops",
    passwordHash := "salt:hash", role := .operator, totpSecret := none,
    totpEnabled := false, backupCodes := [], createdAt := 0, updatedAt := 0,
    lastLoginAt := none }

/-- Forged temp-token payload: a JSON object never produced by
`generateTempToken` (its `nonce` field is absent, and its `exp` is not of
the minted `now + 600000` shape for the accompanying mint inputs). -/
def forgedTempToken : TempPayload :=
  { sub := some "intruder", exp := some 4102444800000, nonce := none }

/-- Two concrete audit calls used by the C1 witness. -/
def demoCalls : List AuditCall :=
  [{ id := "id-0", params := demoParams, ts := 1000 },
   { id := "id-1", params := demoParams, ts := 2000 }]

/-- Concrete policy for the C5 witness: 2 requests per 1000 ms with
exponential backoff capped at 5000 ms. -/
def cfgW : RateLimitConfig :=
  { maxRequests := 2, windowMs := 1000, exponentialBackoff := true,
    maxBackoffMs := 5000 }

/-- The verdict of the WHATWG `new URL` constructor on the three endpoint
strings used by the concrete demonstrations below: all three parse
(`httpx` is a valid non-special scheme, whose remainder is
unconstrained). -/
def urlOkDemo : String → Bool := fun s =>
  s = "httpx://example.com" || s = "http://example.com"
  || s = "http://localhost:11434"

/-- Concrete create dto whose endpoint is a well-formed URL starting with
the characters `http` but whose scheme is neither `http` nor `https`. -/
def dtoHttpx : CreateAgentDto :=
  { name := "edge-proxy", type := .custom, endpoint := "httpx://example.com",
    model := "llama3", maxTokens := some 4096, temperature := some 1,
    priority := some 5, weight := some 10, tags := some [] }

/-- Concrete create dto whose name is two spaces: within the declared
2-64 length range, but blank after trimming. -/
def dtoBlankName : CreateAgentDto :=
  { dtoHttpx with
    name := "  ",
    endpoint := "http://example.com" }

/-- Concrete create dto with an empty model and every declared range
satisfied. -/
def dtoEmptyModel : CreateAgentDto :=
  { dtoHttpx with
    endpoint := "http://example.com",
    model := "" }

/-- An existing valid agent configuration for update-route witnesses. -/
def cfgExisting : AgentConfig :=
  { name := "primary", type := .ollama, endpoint := "http://localhost:11434",
    model := "llama3", maxTokens := 4096, temperature := 0, priority := 5,
    weight := 10, tags := [] }

/-- A well-formed partial update. -/
def duRename : UpdateAgentDto :=
  { name := some "renamed", endpoint := none, model := none,
    maxTokens := none, temperature := none, priority := none,
    weight := none, tags := none }

/-- A partial update whose new name is two spaces: accepted by the
partial zod schema, rejected by `Agent.validate` after the merge. -/
def duBlankName : UpdateAgentDto :=
  { duRename with
    name := some "  " }

/-! ## Smooth weighted round-robin
(`OpenClawService.weightedRoundRobin`, `part_015` lines 248-263)

Each cached entry pairs the agent (represented here by its configured
`weight`) with the mutable `currentWeight` accumulator.  One selection
adds every agent's weight to its accumulator, picks the first entry whose
accumulator is maximal (the scan replaces `best` only on strict `>`), and
subtracts the total weight from the winner. -/

/-- The weighted-agent cache: `(weight, currentWeight)` pairs in
first-seen order. -/
abbrev WrrState := List (ℕ × ℤ)

/-- Sum of the configured weights (`total` in the source). -/
def totalWeight (s : WrrState) : ℕ := (s.map Prod.fst).sum

/-- The per-selection increment `wa.currentWeight += wa.agent.weight`
applied to every entry. -/
def wrrIncrement (s : WrrState) : WrrState :=
  s.map (fun p => (p.1, p.2 + (p.1 : ℤ)))

/-- Scan of the remaining entries: `i` is the index of the list head,
`(bi, bv)` the best index and value so far; replace only on strict
`bv < v`. -/
def bestScan (i bi : ℕ) (bv : ℤ) : List ℤ → ℕ × ℤ
  | [] => (bi, bv)
  | v :: r => if bv < v then bestScan (i + 1) i v r else bestScan (i + 1) bi bv r

/-- First index attaining the maximum, with its value (the loop starts
with `best = weightedAgents[0]`). -/
def bestOf : List ℤ → ℕ × ℤ
  | [] => (0, 0)
  | v :: r => bestScan 1 0 v r

/-- Subtract `t` from the `currentWeight` of the entry at index `b`
(`best.currentWeight -= total`). -/
def decrementAt : WrrState → ℕ → ℤ → WrrState
  | [], _, _ => []
  | p :: r, 0, t => (p.1, p.2 - t) :: r
  | p :: r, Nat.succ n, t => p :: decrementAt r n t

/-- One call of `weightedRoundRobin`: returns the selected index and the
updated cache. -/
def wrrStep (s : WrrState) : ℕ × WrrState :=
  let t : ℤ := (totalWeight s : ℤ)
  let inc := wrrIncrement s
  let b := (bestOf (inc.map Prod.snd)).1
  (b, decrementAt inc b t)

/-- The cache as rebuilt by `syncAgentsIfNeeded`: every `currentWeight`
starts at 0. -/
def wrrInit (w : List ℕ) : WrrState := w.map (fun x => (x, 0))

/-- `N` consecutive selections: final cache and the selection sequence. -/
def wrrRun (s : WrrState) : ℕ → WrrState × List ℕ
  | 0 => (s, [])
  | Nat.succ n =>
    let prev := wrrRun s n
    let step := wrrStep prev.1
    (step.2, prev.2 ++ [step.1])

/-- Number of times agent `i` was selected in the first `N` selections
over a stable healthy set with weights `w`. -/
def selCount (w : List ℕ) (i N : ℕ) : ℕ :=
  (wrrRun (wrrInit w) N).2.count i

/-- Invariant of the smooth-WRR cache: accumulators sum to zero and each
stays strictly above `-total`. -/
def wrrInv (s : WrrState) : Prop :=
  ((s.map Prod.snd).sum = 0) ∧ ∀ p ∈ s, -((totalWeight s : ℕ) : ℤ) < p.2

/-! ## Theorems -/

/-- Helper: a nibble never encodes to the separator character. -/
theorem hexDigit_ne_colon (n : ℕ) (hn : n < 16) : hexDigit n ≠ ':' := by
  interval_cases n <;> decide

/-- Helper: hex output of a byte list contains no separator. -/
theorem colon_not_mem_hexEncode :
    ∀ (l : List ℕ), (∀ b ∈ l, b < 256) → ':' ∉ hexEncode l := by
  intro l
  induction l with
  | nil => intro _ h; simp [hexEncode] at h
  | cons b rest ih =>
    intro hb h
    have hb256 : b < 256 := hb b (List.mem_cons_self b rest)
    have h1 : hexDigit (b / 16) ≠ ':' :=
      hexDigit_ne_colon _ (Nat.div_lt_of_lt_mul (by omega))
    have h2 : hexDigit (b % 16) ≠ ':' :=
      hexDigit_ne_colon _ (Nat.mod_lt _ (by omega))
    simp only [hexEncode, List.mem_cons] at h
    rcases h with h | h | h
    · exact h1 h.symm
    · exact h2 h.symm
    · exact ih (fun x hx => hb x (List.mem_cons_of_mem _ hx)) h

/-- Helper: splitting at the first separator. -/
theorem splitOnChar_append_sep (sep : Char) :
    ∀ (a b : List Char), sep ∉ a →
      splitOnChar sep (a ++ sep :: b) = a :: splitOnChar sep b := by
  intro a
  induction a with
  | nil =>
    intro b _
    simp [splitOnChar]
  | cons c a ih =>
    intro b hmem
    have hc : ¬ c = sep := fun h => hmem (by rw [h]; exact List.mem_cons_self _ _)
    have hrec := ih b (fun h => hmem (List.mem_cons_of_mem _ h))
    show splitOnChar sep (c :: (a ++ sep :: b)) = (c :: a) :: splitOnChar sep b
    have hstep : splitOnChar sep (c :: (a ++ sep :: b))
        = consHead c (splitOnChar sep (a ++ sep :: b)) := by
      simp only [splitOnChar]
      rw [if_neg hc]
    rw [hstep, hrec]
    rfl

/-- Helper: a separator-free suffix forms a single group. -/
theorem splitOnChar_no_sep (sep : Char) :
    ∀ (a : List Char), sep ∉ a → splitOnChar sep a = [a] := by
  intro a
  induction a with
  | nil => intro _; rfl
  | cons c a ih =>
    intro hmem
    have hc : ¬ c = sep := fun h => hmem (by rw [h]; exact List.mem_cons_self _ _)
    have hrec := ih (fun h => hmem (List.mem_cons_of_mem _ h))
    have hstep : splitOnChar sep (c :: a) = consHead c (splitOnChar sep a) := by
      simp only [splitOnChar]
      rw [if_neg hc]
    rw [hstep, hrec]
    rfl

/-- Helper: hex encoding of a byte is reversible. -/
theorem hexVal_hexDigit (n : ℕ) (hn : n < 16) : hexVal (hexDigit n) = some n := by
  interval_cases n <;> decide

/-- Helper: `hexDecode` inverts `hexEncode` on byte lists. -/
theorem hexDecode_hexEncode :
    ∀ (l : List ℕ), (∀ b ∈ l, b < 256) → hexDecode (hexEncode l) = l := by
  intro l
  induction l with
  | nil => intro _; rfl
  | cons b rest ih =>
    intro hb
    have hb256 : b < 256 := hb b (List.mem_cons_self b rest)
    show hexDecode (hexDigit (b / 16) :: hexDigit (b % 16) :: hexEncode rest) = _
    unfold hexDecode
    rw [hexVal_hexDigit _ (Nat.div_lt_of_lt_mul (by omega)),
      hexVal_hexDigit _ (Nat.mod_lt _ (by omega)),
      ih (fun x hx => hb x (List.mem_cons_of_mem _ hx))]
    show (16 * (b / 16) + b % 16) :: rest = b :: rest
    have hbyte : 16 * (b / 16) + b % 16 = b := by omega
    rw [hbyte]

/-- Helper: hex encoding is empty only for the empty byte list. -/
theorem hexEncode_eq_nil_iff (l : List ℕ) : hexEncode l = [] ↔ l = [] := by
  cases l with
  | nil => simp [hexEncode]
  | cons b rest => simp [hexEncode]

/-- Helper: the entry selected by `latestEntry` is a member of the log. -/
theorem latestEntry_mem {D : Type} :
    ∀ {l : List (AuditEntryProps D)} {b}, latestEntry l = some b → b ∈ l := by
  intro l
  induction l with
  | nil => intro b h; exact absurd h (by simp [latestEntry])
  | cons e rest ih =>
    intro b h
    cases hr : latestEntry rest with
    | none =>
      have hred : latestEntry (e :: rest) = some e := by
        unfold latestEntry; rw [hr]
      rw [hred] at h
      cases h
      exact List.mem_cons_self e rest
    | some b₀ =>
      have hred : latestEntry (e :: rest)
          = if b₀.timestamp > e.timestamp then some b₀ else some e := by
        unfold latestEntry; rw [hr]
      rw [hred] at h
      by_cases hlt : b₀.timestamp > e.timestamp
      · rw [if_pos hlt] at h
        cases h
        exact List.mem_cons_of_mem e (ih hr)
      · rw [if_neg hlt] at h
        cases h
        exact List.mem_cons_self e rest

/-- Helper: on a log whose timestamps are strictly increasing in insertion
order, `ORDER BY timestamp DESC LIMIT 1` selects the last inserted row. -/
theorem latestEntry_eq_getLast {D : Type} :
    ∀ {l : List (AuditEntryProps D)},
      (l.map (fun e => e.timestamp)).Pairwise (· < ·) →
      latestEntry l = l.getLast? := by
  intro l
  induction l with
  | nil => intro _; rfl
  | cons e rest ih =>
    intro hp
    rw [List.map_cons, List.pairwise_cons] at hp
    obtain ⟨hlt, hp'⟩ := hp
    cases rest with
    | nil => rfl
    | cons r rs =>
      have hrest : latestEntry (r :: rs) = (r :: rs).getLast? := ih hp'
      have hne : (r :: rs).getLast? = some ((r :: rs).getLast (by simp)) :=
        List.getLast?_eq_getLast _ _
      have hbmem : (r :: rs).getLast (by simp) ∈ r :: rs :=
        List.getLast_mem _
      have hts : e.timestamp < ((r :: rs).getLast (by simp)).timestamp := by
        exact hlt _ (List.mem_map_of_mem (fun x => x.timestamp) hbmem)
      have hred : latestEntry (e :: r :: rs)
          = if ((r :: rs).getLast (by simp)).timestamp > e.timestamp
            then some ((r :: rs).getLast (by simp)) else some e := by
        unfold latestEntry
        rw [hrest, hne]
      rw [hred, if_pos hts, List.getLast?_cons_cons, hne]

/-- Helper: the timestamps of a run are exactly the call timestamps, in
order (starting from any already-persisted prefix). -/
theorem auditRun_timestamps_aux {D : Type} (sha256 : AuditCanon D → D) :
    ∀ (calls : List AuditCall) (acc : List (AuditEntryProps D)),
      ((calls.foldl (fun a c => auditLog sha256 a c.id c.params c.ts) acc).map
          (fun e => e.timestamp))
        = acc.map (fun e => e.timestamp) ++ calls.map (fun c => c.ts) := by
  intro calls
  induction calls with
  | nil => intro acc; simp
  | cons c cs ih =>
    intro acc
    rw [List.foldl_cons, ih]
    simp [auditLog, AuditEntry.create]

/-- Helper: the timestamps of a run from the empty log are the call
timestamps. -/
theorem auditRun_timestamps {D : Type} (sha256 : AuditCanon D → D)
    (calls : List AuditCall) :
    ((auditRun sha256 calls).map (fun e => e.timestamp))
      = calls.map (fun c => c.ts) := by
  have := auditRun_timestamps_aux sha256 calls []
  simpa [auditRun] using this

/-- Helper: a run over one further call appends one linked entry. -/
theorem auditRun_append_call {D : Type} (sha256 : AuditCanon D → D)
    (cs : List AuditCall) (c : AuditCall) :
    auditRun sha256 (cs ++ [c])
      = auditRun sha256 cs
        ++ [AuditEntry.create sha256 c.id c.params
              (findLatestFingerprint (auditRun sha256 cs)) c.ts] := by
  simp [auditRun, List.foldl_append, auditLog]

/-- Helper: `endFingerprint` steps through a cons cell. -/
theorem endFingerprint_cons {D : Type} (p : Option D)
    (a : AuditEntryProps D) (l : List (AuditEntryProps D)) :
    endFingerprint p (a :: l) = endFingerprint (some a.fingerprint) l := by
  cases l with
  | nil => rfl
  | cons b bs =>
    unfold endFingerprint
    rw [List.getLast?_cons_cons]
    cases hg : (b :: bs).getLast? with
    | none => exact absurd hg (by simp)
    | some x => rfl

/-- Helper: chain shape of a log extended by one entry. -/
theorem chainedFrom_append {D : Type} :
    ∀ (l : List (AuditEntryProps D)) (p : Option D) (e : AuditEntryProps D),
      chainedFrom p (l ++ [e])
        ↔ chainedFrom p l ∧ e.previousFingerprint = endFingerprint p l := by
  intro l
  induction l with
  | nil =>
    intro p e
    simp [chainedFrom, endFingerprint]
  | cons a as ih =>
    intro p e
    rw [List.cons_append]
    show a.previousFingerprint = p ∧ chainedFrom (some a.fingerprint) (as ++ [e])
      ↔ _
    rw [ih (some a.fingerprint) e, endFingerprint_cons]
    show _ ↔ (a.previousFingerprint = p ∧ chainedFrom (some a.fingerprint) as) ∧ _
    tauto

/-- Helper: every audit run from the empty table with strictly increasing
wall-clock timestamps is hash-chained starting at GENESIS. -/
theorem auditRun_chainedFrom {D : Type} (sha256 : AuditCanon D → D)
    (calls : List AuditCall)
    (hmono : (calls.map (fun c => c.ts)).Pairwise (· < ·)) :
    chainedFrom none (auditRun sha256 calls) := by
  induction calls using List.reverseRecOn with
  | nil => trivial
  | append_singleton cs c ih =>
    rw [List.map_append] at hmono
    have hcs : (cs.map (fun c => c.ts)).Pairwise (· < ·) :=
      (List.pairwise_append.mp hmono).1
    rw [auditRun_append_call]
    rw [chainedFrom_append]
    refine ⟨ih hcs, ?_⟩
    show findLatestFingerprint (auditRun sha256 cs) = _
    unfold findLatestFingerprint
    rw [latestEntry_eq_getLast (by rw [auditRun_timestamps]; exact hcs)]
    unfold endFingerprint
    cases (auditRun sha256 cs).getLast? with
    | none => rfl
    | some x => rfl

/-- Helper: index form of the chain shape. -/
theorem chainedFrom_index {D : Type} :
    ∀ (l : List (AuditEntryProps D)) (p : Option D), chainedFrom p l →
      (∀ (h₀ : 0 < l.length), (l.get ⟨0, h₀⟩).previousFingerprint = p)
      ∧ (∀ (k : ℕ) (h : k + 1 < l.length),
          (l.get ⟨k + 1, h⟩).previousFingerprint
            = some ((l.get ⟨k, Nat.lt_of_succ_lt h⟩).fingerprint)) := by
  intro l
  induction l with
  | nil =>
    intro p _
    constructor
    · intro h₀; exact absurd h₀ (by simp)
    · intro k h; exact absurd h (by simp)
  | cons e rest ih =>
    intro p hc
    obtain ⟨h₁, h₂⟩ := hc
    have ihr := ih (some e.fingerprint) h₂
    constructor
    · intro _; exact h₁
    · intro k h
      cases k with
      | zero =>
        have h₀ : 0 < rest.length := Nat.lt_of_succ_lt_succ h
        exact ihr.1 h₀
      | succ k =>
        have h' : k + 1 < rest.length := Nat.lt_of_succ_lt_succ h
        exact ihr.2 k h'

/-- C1: for every sequence of audit appends from an empty log (with the
strictly increasing `Date.now()` timestamps under which `ORDER BY
timestamp DESC LIMIT 1` identifies the most recently inserted row), the
first entry links to GENESIS and every later entry links to the
fingerprint of its predecessor. -/
theorem c1_audit_chain_links {D : Type} (sha256 : AuditCanon D → D)
    (calls : List AuditCall)
    (hmono : (calls.map (fun c => c.ts)).Pairwise (· < ·)) :
    (∀ (h₀ : 0 < (auditRun sha256 calls).length),
        ((auditRun sha256 calls).get ⟨0, h₀⟩).previousFingerprint = none)
    ∧ (∀ (k : ℕ) (h : k + 1 < (auditRun sha256 calls).length),
        ((auditRun sha256 calls).get ⟨k + 1, h⟩).previousFingerprint
          = some (((auditRun sha256 calls).get
              ⟨k, Nat.lt_of_succ_lt h⟩).fingerprint)) :=
  chainedFrom_index (auditRun sha256 calls) none
    (auditRun_chainedFrom sha256 calls hmono)

/-- C1 witness: a concrete two-call run, with the hypotheses discharged at
a concrete digest function. -/
theorem c1_audit_chain_links_witness :
    (∀ (h₀ : 0 < (auditRun shaDemo demoCalls).length),
        ((auditRun shaDemo demoCalls).get ⟨0, h₀⟩).previousFingerprint = none)
    ∧ (∀ (k : ℕ) (h : k + 1 < (auditRun shaDemo demoCalls).length),
        ((auditRun shaDemo demoCalls).get ⟨k + 1, h⟩).previousFingerprint
          = some (((auditRun shaDemo demoCalls).get
              ⟨k, Nat.lt_of_succ_lt h⟩).fingerprint)) :=
  c1_audit_chain_links shaDemo demoCalls (by decide)

/-- C2 counterexample: altering the persisted `userEmail`, `ipAddress` and
`userAgent` of an audit entry leaves `recomputeAndVerify` returning
`true`, because `computeFingerprint` does not cover those three fields; so
recomputation does NOT equal the stored fingerprint "iff no field has been
altered". -/
theorem c2_uncovered_fields_not_detected :
    recomputeAndVerify shaDemo tamperedDemoEntry = true
    ∧ tamperedDemoEntry.userEmail ≠ demoEntry.userEmail
    ∧ tamperedDemoEntry.ipAddress ≠ demoEntry.ipAddress
    ∧ tamperedDemoEntry.userAgent ≠ demoEntry.userAgent
    ∧ tamperedDemoEntry.fingerprint = demoEntry.fingerprint := by
  exact ⟨rfl, by decide, by decide, by decide, rfl⟩

/-- C2 (amended): for an entry produced by `AuditEntry.create`,
recomputing the fingerprint from the persisted fields yields the stored
fingerprint iff none of the eight covered fields (`id`, `action`,
`userId`, `resourceType`, `resourceId`, `details`, `previousFingerprint`,
`timestamp`) has been altered — assuming SHA-256 produces no collision
between the two canonical pre-images involved.  The uncovered fields
`userEmail`, `ipAddress` and `userAgent` do not participate. -/
theorem c2_fingerprint_detects_canonical_tampering {D : Type}
    [DecidableEq D] (sha256 : AuditCanon D → D) (id : String)
    (p : AuditLogParams) (prev : Option D) (ts : Int)
    (e eT : AuditEntryProps D)
    (he : e = AuditEntry.create sha256 id p prev ts)
    (hfp : eT.fingerprint = e.fingerprint)
    (hcoll : sha256 (canonOf eT) = sha256 (canonOf e) →
      canonOf eT = canonOf e) :
    recomputeAndVerify sha256 eT = true
      ↔ (eT.id = e.id ∧ eT.action = e.action ∧ eT.userId = e.userId
         ∧ eT.resourceType = e.resourceType ∧ eT.resourceId = e.resourceId
         ∧ eT.details = e.details
         ∧ eT.previousFingerprint = e.previousFingerprint
         ∧ eT.timestamp = e.timestamp) := by
  have hc : sha256 (canonOf e) = e.fingerprint := by
    rw [he]; rfl
  constructor
  · intro hv
    have hsha : sha256 (canonOf eT) = sha256 (canonOf e) := by
      have hv' : (computeFingerprint sha256 eT == eT.fingerprint) = true := hv
      have h₁ : sha256 (canonOf eT) = eT.fingerprint := eq_of_beq hv'
      rw [h₁, hfp, hc]
    have hce := hcoll hsha
    simp only [canonOf, AuditCanon.mk.injEq] at hce
    exact hce
  · intro hfields
    have hce : canonOf eT = canonOf e := by
      simp only [canonOf, AuditCanon.mk.injEq]
      exact hfields
    show (computeFingerprint sha256 eT == eT.fingerprint) = true
    rw [show computeFingerprint sha256 eT = sha256 (canonOf eT) from rfl,
      hce, hc, hfp]
    exact beq_self_eq_true _

/-- C2 witness: the amended equivalence instantiated at the concrete demo
entry compared against itself. -/
theorem c2_fingerprint_detects_canonical_tampering_witness :
    recomputeAndVerify shaDemo demoEntry = true
      ↔ (demoEntry.id = demoEntry.id ∧ demoEntry.action = demoEntry.action
         ∧ demoEntry.userId = demoEntry.userId
         ∧ demoEntry.resourceType = demoEntry.resourceType
         ∧ demoEntry.resourceId = demoEntry.resourceId
         ∧ demoEntry.details = demoEntry.details
         ∧ demoEntry.previousFingerprint = demoEntry.previousFingerprint
         ∧ demoEntry.timestamp = demoEntry.timestamp) :=
  c2_fingerprint_detects_canonical_tampering shaDemo "aaaa1111" demoParams
    none 1700000000000 demoEntry demoEntry rfl rfl (fun _ => rfl)

/-- Helper: a string built from a non-empty character list is not the
empty string. -/
theorem strMk_ne_empty {l : List Char} (h : l ≠ []) : (⟨l⟩ : String) ≠ "" := by
  intro he
  exact h (congrArg String.data he)

/-- Helper: splitting the stored `iv_hex:tag_hex:ciphertext_hex` form
recovers exactly the three hex components (hex output never contains the
separator). -/
theorem splitColon_encrypt (g : GCMCipher) (m : List ℕ) (keyHex : String)
    (iv : List ℕ) (hkey : (deriveAesKey keyHex).length = 32)
    (hmb : ∀ b ∈ m, b < 256) (hivb : ∀ b ∈ iv, b < 256) :
    splitColon (encryptedStore g m keyHex iv)
      = [⟨hexEncode iv⟩, ⟨hexEncode (g.tag (deriveAesKey keyHex) iv m)⟩,
         ⟨hexEncode (g.enc (deriveAesKey keyHex) iv m)⟩] := by
  have hiv : ':' ∉ hexEncode iv := colon_not_mem_hexEncode iv hivb
  have htag : ':' ∉ hexEncode (g.tag (deriveAesKey keyHex) iv m) :=
    colon_not_mem_hexEncode _ (g.tag_bytes _ _ _ hkey)
  have hct : ':' ∉ hexEncode (g.enc (deriveAesKey keyHex) iv m) :=
    colon_not_mem_hexEncode _ (g.enc_bytes _ _ _ hkey hmb)
  simp only [encryptedStore, splitColon]
  rw [List.append_assoc, List.cons_append]
  rw [splitOnChar_append_sep ':' _ _ hiv,
    splitOnChar_append_sep ':' _ _ htag,
    splitOnChar_no_sep ':' _ hct]
  rfl

/-- Helper: reduction of `decryptAES256` once the split is known. -/
theorem decryptAES256_eq_parts (g : GCMCipher) (ciphertext keyHex : String)
    (p₁ p₂ p₃ : String) (rest : List String)
    (h : splitColon ciphertext = p₁ :: p₂ :: p₃ :: rest) :
    decryptAES256 g ciphertext keyHex = decryptParts g keyHex p₁ p₂ p₃ := by
  unfold decryptAES256
  rw [h]

/-- C3 counterexample: the empty plaintext does not round-trip — its
encryption succeeds (the key `"ab"` pads to 64 hex characters, so the
derived key has the full 32 bytes), but the stored ciphertext hex
component is the empty string, which the JS falsy check in
`decryptAES256` rejects with `Invalid ciphertext format` instead of
returning the empty plaintext. -/
theorem c3_empty_plaintext_roundtrip_fails :
    (∃ stored, encryptAES256 gcmTriv [] "ab" (List.replicate 16 7)
        = .ok stored)
    ∧ Except.bind (encryptAES256 gcmTriv [] "ab" (List.replicate 16 7))
        (fun stored => decryptAES256 gcmTriv stored "ab")
      = .error "Invalid ciphertext format" :=
  ⟨⟨encryptedStore gcmTriv [] "ab" (List.replicate 16 7), rfl⟩, rfl⟩

/-- C3 (amended): `decryptAES256 (encryptAES256 m k) k = m` holds for
every non-empty plaintext (bytes of the UTF-8 encoding of the JS string)
and every key accepted by `createCipheriv` — one whose derived key has
the full 32 bytes, i.e. whose first 64 zero-padded characters are all hex
digits — for every cipher satisfying the AES-GCM contract; for the empty
plaintext the decryption instead fails with `Invalid ciphertext format`
(a key failing the length check makes both functions throw
`Invalid key length` instead). -/
theorem c3_encrypt_decrypt_roundtrip (g : GCMCipher) (m : List ℕ)
    (keyHex : String) (iv : List ℕ)
    (hkey : (deriveAesKey keyHex).length = 32) (hm : m ≠ [])
    (hmb : ∀ b ∈ m, b < 256) (hiv16 : iv.length = 16)
    (hivb : ∀ b ∈ iv, b < 256) :
    Except.bind (encryptAES256 g m keyHex iv)
        (fun stored => decryptAES256 g stored keyHex) = .ok m
    ∧ Except.bind (encryptAES256 g [] keyHex iv)
        (fun stored => decryptAES256 g stored keyHex)
      = .error "Invalid ciphertext format" := by
  have hivne : hexEncode iv ≠ [] := by
    rw [ne_eq, hexEncode_eq_nil_iff]
    intro h
    rw [h] at hiv16
    simp at hiv16
  have henc : ∀ p : List ℕ, encryptAES256 g p keyHex iv
      = .ok (encryptedStore g p keyHex iv) := by
    intro p
    unfold encryptAES256
    rw [if_pos hkey]
  constructor
  · rw [henc m]
    show decryptAES256 g (encryptedStore g m keyHex iv) keyHex = .ok m
    rw [decryptAES256_eq_parts g _ keyHex _ _ _ []
      (splitColon_encrypt g m keyHex iv hkey hmb hivb)]
    unfold decryptParts
    have htagne : hexEncode (g.tag (deriveAesKey keyHex) iv m) ≠ [] := by
      rw [ne_eq, hexEncode_eq_nil_iff]
      intro h
      have := g.tag_length (deriveAesKey keyHex) iv m hkey
      rw [h] at this
      simp at this
    have hctne : hexEncode (g.enc (deriveAesKey keyHex) iv m) ≠ [] := by
      rw [ne_eq, hexEncode_eq_nil_iff]
      intro h
      have := g.enc_length (deriveAesKey keyHex) iv m hkey
      rw [h] at this
      exact hm (List.length_eq_zero.mp this.symm)
    rw [if_neg (by
      push_neg
      exact ⟨strMk_ne_empty hivne, strMk_ne_empty htagne, strMk_ne_empty hctne⟩)]
    rw [if_neg (not_not.mpr hkey)]
    rw [show (String.data ⟨hexEncode iv⟩) = hexEncode iv from rfl,
      show (String.data ⟨hexEncode (g.tag (deriveAesKey keyHex) iv m)⟩)
        = hexEncode (g.tag (deriveAesKey keyHex) iv m) from rfl,
      show (String.data ⟨hexEncode (g.enc (deriveAesKey keyHex) iv m)⟩)
        = hexEncode (g.enc (deriveAesKey keyHex) iv m) from rfl]
    rw [hexDecode_hexEncode iv hivb,
      hexDecode_hexEncode _ (g.tag_bytes _ _ _ hkey),
      hexDecode_hexEncode _ (g.enc_bytes _ _ _ hkey hmb),
      g.dec_enc _ _ _ hkey hiv16]
  · rw [henc []]
    show decryptAES256 g (encryptedStore g [] keyHex iv) keyHex
      = .error "Invalid ciphertext format"
    rw [decryptAES256_eq_parts g _ keyHex _ _ _ []
      (splitColon_encrypt g [] keyHex iv hkey (by simp) hivb)]
    unfold decryptParts
    rw [if_pos]
    right
    right
    have : hexEncode (g.enc (deriveAesKey keyHex) iv []) = [] := by
      rw [hexEncode_eq_nil_iff, ← List.length_eq_zero,
        g.enc_length _ _ _ hkey]
      rfl
    rw [this]

/-- C3 witness: a concrete two-byte plaintext round-trips under the
concrete cipher instance and the valid key `"ab"`, while the empty
plaintext fails with the format error. -/
theorem c3_encrypt_decrypt_roundtrip_witness :
    Except.bind (encryptAES256 gcmTriv [104, 105] "ab" (List.replicate 16 7))
        (fun stored => decryptAES256 gcmTriv stored "ab")
      = .ok [104, 105]
    ∧ Except.bind (encryptAES256 gcmTriv [] "ab" (List.replicate 16 7))
        (fun stored => decryptAES256 gcmTriv stored "ab")
      = .error "Invalid ciphertext format" :=
  c3_encrypt_decrypt_roundtrip gcmTriv [104, 105] "ab" (List.replicate 16 7)
    (by decide) (by decide) (by decide) (by decide) (by decide)

/-- Helper: division bounds for an instant inside window `q`. -/
theorem rl_window_bounds {w t q : ℕ} (hw : 0 < w) (ht : t / w = q) :
    q * w ≤ t ∧ t < q * w + w := by
  have hdm := Nat.div_add_mod t w
  have hmod := Nat.mod_lt t hw
  rw [ht] at hdm
  have hcomm : q * w = w * q := Nat.mul_comm q w
  constructor <;> omega

/-- Helper: one `check` call on the single-row store of the current
window increments the counter and produces the outcome determined by the
new count. -/
theorem rl_check_step (cfg : RateLimitConfig) (key : String) (q t c : ℕ)
    (hw : 0 < cfg.windowMs) (ht : t / cfg.windowMs = q) :
    rateLimitCheck cfg key t [rlRow cfg key q c]
      = (rlExpected cfg q (c + 1), [rlRow cfg key q (c + 1)]) := by
  obtain ⟨hlb, hub⟩ := rl_window_bounds hw ht
  have hcond : ¬ (((q * cfg.windowMs : ℕ) : Int) <
      (t : Int) - (cfg.windowMs : ℕ) * 10) := by
    push_cast
    omega
  have hprune : rlPrune [rlRow cfg key q c]
      ((t : Int) - (cfg.windowMs : ℕ) * 10) = [rlRow cfg key q c] := by
    simp [rlPrune, rlRow]
    omega
  have hlook : rlLookup [rlRow cfg key q c]
      (key ++ ":" ++ toString (q * cfg.windowMs)) (q * cfg.windowMs)
      = some c := by
    simp [rlLookup, rlRow, List.find?]
  have hup : ∀ n, rlUpsert [rlRow cfg key q c]
      (key ++ ":" ++ toString (q * cfg.windowMs)) (q * cfg.windowMs) n
      = [rlRow cfg key q (c + 1)] := by
    intro n
    simp [rlUpsert, rlRow, List.find?]
  simp only [rateLimitCheck, ht, hprune, hlook, hup, Option.getD_some]
  by_cases hgt : c + 1 > cfg.maxRequests
  · simp only [rlExpected, if_pos hgt]
  · simp only [rlExpected, if_neg hgt]

/-- Helper: the first `check` call from the empty store creates the
counter row at 1. -/
theorem rl_check_first (cfg : RateLimitConfig) (key : String) (q t : ℕ)
    (ht : t / cfg.windowMs = q) :
    rateLimitCheck cfg key t []
      = (rlExpected cfg q 1, [rlRow cfg key q 1]) := by
  by_cases hgt : 1 > cfg.maxRequests
  · simp [rateLimitCheck, rlPrune, rlLookup, rlUpsert, rlExpected, rlRow,
      ht, hgt]
  · simp [rateLimitCheck, rlPrune, rlLookup, rlUpsert, rlExpected, rlRow,
      ht, hgt]

/-- Helper: a trace of same-window calls starting from count `c` yields
the outcomes of counts `c+1, c+2, …` and leaves the counter at
`c + length`. -/
theorem rl_trace_from_row (cfg : RateLimitConfig) (key : String) (q : ℕ)
    (hw : 0 < cfg.windowMs) :
    ∀ (times : List ℕ) (c : ℕ), (∀ t ∈ times, t / cfg.windowMs = q) →
      rateLimitTrace cfg key times [rlRow cfg key q c]
        = ((List.range times.length).map (fun j => rlExpected cfg q (c + j + 1)),
           [rlRow cfg key q (c + times.length)]) := by
  intro times
  induction times with
  | nil => intro c _; simp [rateLimitTrace]
  | cons t ts ih =>
    intro c hsame
    have hstep := rl_check_step cfg key q t c hw
      (hsame t (List.mem_cons_self t ts))
    have hrest := ih (c + 1) (fun x hx => hsame x (List.mem_cons_of_mem _ hx))
    simp only [rateLimitTrace, hstep, hrest]
    rw [Prod.mk.injEq]
    constructor
    · rw [List.length_cons, List.range_succ_eq_map, List.map_cons,
        List.map_map]
      rw [List.cons.injEq]
      constructor
      · exact congrArg (rlExpected cfg q) (by omega)
      · apply List.map_congr_left
        intro j _
        simp only [Function.comp_apply]
        exact congrArg (rlExpected cfg q) (by omega)
    · rw [List.length_cons]
      exact congrArg (fun k => [rlRow cfg key q k]) (by omega)

/-- Helper: a `check` call in a strictly later window does not see the
old window counter (whether or not pruning removed it) and returns
normally when the policy allows at least one request. -/
theorem rl_check_new_window (cfg : RateLimitConfig) (key : String)
    (q c q' tL : ℕ) (hw : 0 < cfg.windowMs)
    (ht : tL / cfg.windowMs = q') (hne : q ≠ q')
    (hmax : 1 ≤ cfg.maxRequests) :
    (rateLimitCheck cfg key tL [rlRow cfg key q c]).1
      = .ok { remaining := cfg.maxRequests - 1,
              resetAt := q' * cfg.windowMs + cfg.windowMs,
              limit := cfg.maxRequests } := by
  have hwsne : q * cfg.windowMs ≠ q' * cfg.windowMs := by
    intro h
    exact hne (Nat.eq_of_mul_eq_mul_right hw h)
  have hlook : ∀ cutoff, rlLookup
      (rlPrune [rlRow cfg key q c] cutoff)
      (key ++ ":" ++ toString (q' * cfg.windowMs)) (q' * cfg.windowMs)
      = none := by
    intro cutoff
    unfold rlPrune
    rw [List.filter_singleton]
    cases hd : decide ¬ (((rlRow cfg key q c).windowStart : Int) < cutoff) with
    | false => simp only [hd, cond_false]; rfl
    | true =>
      simp only [hd, cond_true]
      have hb : (q * cfg.windowMs == q' * cfg.windowMs) = false :=
        beq_eq_false_iff_ne.mpr hwsne
      simp [rlLookup, rlRow, List.find?, hb]
  have hnotgt : ¬ (1 > cfg.maxRequests) := by omega
  simp only [rateLimitCheck, ht, hlook, Option.getD_none, hnotgt, if_false]

/-- C5: for one key and policy `{max_requests, window_ms}` starting from
no recorded windows, each of the first `max_requests` calls inside one
window returns `remaining = max(0, max_requests - count)` (where `count`
is the 1-based call number) with `reset_at = window_start + window_ms`;
the `(max_requests + 1)`-th call in the same window raises `RateLimited`;
and a call in a strictly later window returns normally again. -/
theorem c5_rate_limit_window (cfg : RateLimitConfig) (key : String) (q : ℕ)
    (times : List ℕ) (hw : 0 < cfg.windowMs) (hmax : 1 ≤ cfg.maxRequests)
    (hsame : ∀ t ∈ times, t / cfg.windowMs = q)
    (hlen : times.length = cfg.maxRequests + 1)
    (tLater : ℕ) (hlater : q < tLater / cfg.windowMs) :
    (∀ (i : ℕ), i < cfg.maxRequests →
      ∀ (hi : i < (rateLimitTrace cfg key times []).1.length),
        (rateLimitTrace cfg key times []).1.get ⟨i, hi⟩
          = .ok { remaining := cfg.maxRequests - (i + 1),
                  resetAt := q * cfg.windowMs + cfg.windowMs,
                  limit := cfg.maxRequests })
    ∧ (∀ (hM : cfg.maxRequests < (rateLimitTrace cfg key times []).1.length),
        ∃ retry, (rateLimitTrace cfg key times []).1.get
            ⟨cfg.maxRequests, hM⟩ = .error retry)
    ∧ (rateLimitCheck cfg key tLater (rateLimitTrace cfg key times []).2).1
        = .ok { remaining := cfg.maxRequests - 1,
                resetAt := tLater / cfg.windowMs * cfg.windowMs + cfg.windowMs,
                limit := cfg.maxRequests } := by
  cases times with
  | nil => exact absurd hlen (by simp)
  | cons t ts =>
    have h1 := rl_check_first cfg key q t (hsame t (List.mem_cons_self t ts))
    have hts := rl_trace_from_row cfg key q hw ts 1
      (fun x hx => hsame x (List.mem_cons_of_mem _ hx))
    have htrace : rateLimitTrace cfg key (t :: ts) []
        = (rlExpected cfg q 1 ::
            (List.range ts.length).map (fun j => rlExpected cfg q (1 + j + 1)),
           [rlRow cfg key q (1 + ts.length)]) := by
      simp only [rateLimitTrace, h1, hts]
    have hmap : (List.range ts.length).map (fun j => rlExpected cfg q (1 + j + 1))
        = (List.range ts.length).map (fun j => rlExpected cfg q (j + 1 + 1)) :=
      List.map_congr_left (fun j _ => congrArg _ (by omega))
    have htraceList : (rateLimitTrace cfg key (t :: ts) []).1
        = (List.range (ts.length + 1)).map (fun j => rlExpected cfg q (j + 1)) := by
      rw [congrArg Prod.fst htrace]
      show rlExpected cfg q 1 :: _ = _
      rw [hmap, List.range_succ_eq_map, List.map_cons, List.map_map]
      rfl
    have hexp : ∀ (n : ℕ), n ≤ cfg.maxRequests →
        rlExpected cfg q n
          = .ok { remaining := cfg.maxRequests - n,
                  resetAt := q * cfg.windowMs + cfg.windowMs,
                  limit := cfg.maxRequests } := by
      intro n hn
      unfold rlExpected
      rw [if_neg (by omega)]
    refine ⟨?_, ?_, ?_⟩
    · intro i hiM hi
      rw [List.get_of_eq htraceList ⟨i, hi⟩]
      simp only [List.get_eq_getElem, List.getElem_map, List.getElem_range]
      exact hexp (i + 1) (by omega)
    · intro hM
      rw [List.get_of_eq htraceList ⟨cfg.maxRequests, hM⟩]
      simp only [List.get_eq_getElem, List.getElem_map, List.getElem_range]
      unfold rlExpected
      rw [if_pos (by omega)]
      exact ⟨_, rfl⟩
    · rw [congrArg Prod.snd htrace]
      exact rl_check_new_window cfg key q (1 + ts.length)
        (tLater / cfg.windowMs) tLater hw rfl (by omega) hmax

/-- C5 witness: three calls at 5000, 5100 and 5999 ms (window 5) — the
first returns remaining 1, the third raises — and a call at 7000 ms
(window 7) returns normally. -/
theorem c5_rate_limit_window_witness :
    (rateLimitTrace cfgW "login:1.2.3.4" [5000, 5100, 5999] []).1.get
        ⟨0, by decide⟩
      = .ok { remaining := 1, resetAt := 6000, limit := 2 }
    ∧ (∃ retry, (rateLimitTrace cfgW "login:1.2.3.4" [5000, 5100, 5999] []).1.get
        ⟨2, by decide⟩ = .error retry)
    ∧ (rateLimitCheck cfgW "login:1.2.3.4" 7000
        (rateLimitTrace cfgW "login:1.2.3.4" [5000, 5100, 5999] []).2).1
      = .ok { remaining := 1, resetAt := 8000, limit := 2 } := by
  have h := c5_rate_limit_window cfgW "login:1.2.3.4" 5 [5000, 5100, 5999]
    (by decide) (by decide) (by decide) (by decide) 7000 (by decide)
  exact ⟨h.1 0 (by decide) (by decide), h.2.1 (by decide), h.2.2⟩

/-- Helper: success characterization of `Agent.validate`. -/
theorem agentValidate_ok_iff (c : AgentConfig) :
    agentValidate c = .ok ()
      ↔ (¬ (c.name = "" ∨ (jsTrim c.name).length < 2)
         ∧ ¬ (c.endpoint = "" ∨ leadingMatch c.endpoint.data "http".data = false)
         ∧ ¬ (c.model = "" ∨ (jsTrim c.model).length = 0)
         ∧ ¬ (c.temperature < 0 ∨ c.temperature > 2)
         ∧ ¬ (c.weight < 1 ∨ c.weight > 100)
         ∧ ¬ (c.priority < 1 ∨ c.priority > 10)) := by
  unfold agentValidate
  split_ifs <;> simp_all

/-- Helper: every error of `Agent.validate` is a `VALIDATION_ERROR`. -/
theorem agentValidate_error_code (c : AgentConfig) (e : DomainErrorData)
    (h : agentValidate c = .error e) : e.code = "VALIDATION_ERROR" := by
  unfold agentValidate at h
  split_ifs at h <;> injection h with h₁ <;> rw [← h₁] <;> rfl

/-- Helper: acceptance characterization of `POST /agents`. -/
theorem createAgentRoute_ok_iff (urlOk : String → Bool)
    (d : CreateAgentDto) :
    createAgentRoute urlOk d = .ok (applyCreateDefaults d)
      ↔ (zodCreateOk urlOk d
         ∧ agentValidate (applyCreateDefaults d) = .ok ()) := by
  unfold createAgentRoute
  by_cases hz : zodCreateOk urlOk d
  · rw [if_pos hz]
    cases hv : agentValidate (applyCreateDefaults d) with
    | error e => simp [hz, hv]
    | ok u => cases u; simp [hz, hv]
  · rw [if_neg hz]
    simp [hz]

/-- Helper: acceptance characterization of `PUT /agents/:id`. -/
theorem updateAgentRoute_ok_iff (urlOk : String → Bool) (a : AgentConfig)
    (d : UpdateAgentDto) :
    updateAgentRoute urlOk a d = .ok (applyUpdate a d)
      ↔ (zodUpdateOk urlOk d
         ∧ agentValidate (applyUpdate a d) = .ok ()) := by
  unfold updateAgentRoute
  by_cases hz : zodUpdateOk urlOk d
  · rw [if_pos hz]
    cases hv : agentValidate (applyUpdate a d) with
    | error e => simp [hz, hv]
    | ok u => cases u; simp [hz, hv]
  · rw [if_neg hz]
    simp [hz]

/-- Helper: a range test on a defaulted optional field reduces to the
partial-schema test when the default itself lies in range. -/
theorem not_out_iff_optOk {α : Type} [LinearOrder α] (o : Option α)
    (dflt lo hi : α) (hd : lo ≤ dflt ∧ dflt ≤ hi) :
    (¬ ((o.getD dflt) < lo ∨ hi < (o.getD dflt)))
      ↔ optOk o (fun v => lo ≤ v ∧ v ≤ hi) := by
  cases o with
  | none =>
    simp only [Option.getD, optOk]
    constructor
    · intro _; trivial
    · intro _
      rw [not_or, not_lt, not_lt]
      exact hd
  | some v =>
    simp only [Option.getD, optOk]
    rw [not_or, not_lt, not_lt]

/-- Helper: a string of length at least two is non-empty. -/
theorem ne_empty_of_two_le_length {s : String} (h : 2 ≤ s.length) :
    s ≠ "" := by
  intro he
  rw [he] at h
  simp [String.length] at h

/-- C7 counterexample: the initial health row written by
`OpenClawService.createAgent` has `request_count = 0` but
`success_rate = 0`, violating the specified invariant that
`success_rate = 1.0` when `request_count = 0`.  The claim that every
agent-health write preserves the invariant is therefore false. -/
theorem c7_createAgent_row_violates_invariant :
    ¬ healthInvariant (createAgentHealthRow "agent-1" 0) := by
  decide

/-- C7 (amended): the post-dispatch metric update and the completed-probe
branch of `checkHealth` preserve the invariant
`success_rate = (request_count - error_count) / request_count` when
`request_count > 0`, else 1.0; the initial health row written at agent
creation and the network-failure probe branch instead write
`success_rate = 0` together with `request_count = 0`, violating it. -/
theorem c7_health_writers_amended
    (agentId : String) (success respOk : Bool) (respStatus : ℕ)
    (latencyMs ts : Int) (existing : Option AgentHealthRecord) :
    healthInvariant (updateAgentMetricsRow agentId success latencyMs existing ts)
    ∧ healthInvariant (checkHealthProbeRow agentId respOk respStatus latencyMs existing ts)
    ∧ (createAgentHealthRow agentId ts).successRate = 0
    ∧ (createAgentHealthRow agentId ts).requestCount = 0
    ∧ ¬ healthInvariant (createAgentHealthRow agentId ts)
    ∧ (checkHealthFailureRow agentId latencyMs ts).successRate = 0
    ∧ (checkHealthFailureRow agentId latencyMs ts).requestCount = 0
    ∧ ¬ healthInvariant (checkHealthFailureRow agentId latencyMs ts) := by
  refine ⟨?_, ?_, rfl, rfl, ?_, rfl, rfl, ?_⟩
  · simp [healthInvariant, updateAgentMetricsRow]
  · cases existing <;> simp only [healthInvariant, checkHealthProbeRow] <;> split <;> simp_all
  · simp [healthInvariant, createAgentHealthRow]
  · simp [healthInvariant, checkHealthFailureRow]

/-- C9: a login that fails because the email is unknown and a login that
fails because the password does not match produce the identical
client-observable outcome: the thrown error is `UNAUTHORIZED` with message
`Invalid email or password` in both runs, so the two failure runs are
indistinguishable to the client. -/
theorem c9_login_failures_indistinguishable
    (verify : String → String → Bool) (users₁ users₂ : List GatewayUser)
    (email₁ password₁ email₂ password₂ : String) (now₁ now₂ : Int)
    (nonce₁ nonce₂ : String) (u : GatewayUser)
    (h₁ : findByEmail users₁ email₁ = none)
    (h₂ : findByEmail users₂ email₂ = some u)
    (h₃ : verify password₂ u.passwordHash = false) :
    loginModel verify users₁ email₁ password₁ now₁ nonce₁
      = loginModel verify users₂ email₂ password₂ now₂ nonce₂
    ∧ loginModel verify users₁ email₁ password₁ now₁ nonce₁
      = .error { message := "Invalid email or password", code := "UNAUTHORIZED",
                 statusCode := 401 } := by
  have e₁ : loginModel verify users₁ email₁ password₁ now₁ nonce₁
      = .error (unauthorized "Invalid email or password") := by
    unfold loginModel
    rw [h₁]
  have e₂ : loginModel verify users₂ email₂ password₂ now₂ nonce₂
      = .error (unauthorized "Invalid email or password") := by
    unfold loginModel
    rw [h₂]
    simp [h₃]
  exact ⟨e₁.trans e₂.symm, e₁⟩

/-- C9 witness: concrete instantiation with an unknown email on one side
and a wrong password for a stored user on the other. -/
theorem c9_login_failures_indistinguishable_witness :
    loginModel (fun _ _ => false) [] "ghost@peanut.local" "pw1" 0 "n1"
      = loginModel (fun _ _ => false) [demoUser] "ops@peanut.local" "pw2" 1 "n2"
    ∧ loginModel (fun _ _ => false) [] "ghost@peanut.local" "pw1" 0 "n1"
      = .error { message := "Invalid email or password", code := "UNAUTHORIZED",
                 statusCode := 401 } :=
  c9_login_failures_indistinguishable (fun _ _ => false) [] [demoUser]
    "ghost@peanut.local" "pw1" "ops@peanut.local" "pw2" 0 1 "n1" "n2" demoUser
    rfl rfl rfl

/-- C6 (code bug): `AuthService.validateTempToken` performs no signature or
authenticity check, contradicting both the specification (the intermediate
token is a signed or authenticated opaque blob) and the code comment on
`generateTempToken` (`Signed temp token with expiry`).  A forged payload
that the gateway never minted is accepted and yields its attacker-chosen
`sub`; a payload with the `exp` field missing entirely (malformed by the
claim) is accepted as well. -/
theorem c6_forged_temp_token_accepted :
    validateTempToken (some forgedTempToken) 1760227200000 = .ok (some "intruder")
    ∧ (∀ (userId : String) (now : Int) (nonce : String),
        generateTempToken userId now nonce ≠ forgedTempToken)
    ∧ validateTempToken
        (some { sub := some "intruder", exp := none, nonce := none })
        1760227200000 = .ok (some "intruder") := by
  refine ⟨rfl, ?_, rfl⟩
  intro userId now nonce h
  have : (generateTempToken userId now nonce).nonce = forgedTempToken.nonce := by
    rw [h]
  simp [generateTempToken, forgedTempToken] at this

/-- C10: `verifyPassword` is a total Bool-valued function (it never
raises), and it returns `false` whenever the stored value does not contain
both a non-empty salt and a non-empty hash separated by `:`, or whenever
the derived key length differs from the decoded stored-hash length. -/
theorem c10_verify_password_never_raises (kdf : String → String → List ℕ)
    (password stored : String) :
    ((∀ salt hash rest, splitColon stored = salt :: hash :: rest →
        salt = "" ∨ hash = "") →
      verifyPassword kdf password stored = false)
    ∧ (∀ salt hash rest, splitColon stored = salt :: hash :: rest →
        (kdf password salt).length ≠ (hexDecode hash.data).length →
        verifyPassword kdf password stored = false) := by
  constructor
  · intro h
    unfold verifyPassword
    cases hs : splitColon stored with
    | nil => rfl
    | cons salt rest =>
      cases rest with
      | nil => rfl
      | cons hash rest₂ =>
        have hempty := h salt hash rest₂ hs
        simp [hempty]
  · intro salt hash rest hs hlen
    unfold verifyPassword
    rw [hs]
    by_cases hempty : salt = "" ∨ hash = ""
    · simp [hempty]
    · simp [hempty, hlen]

/-- C10 witness: a stored value `":"` with empty salt and hash, and a
well-formed stored value whose one-byte hash cannot match the 64-byte
derived key, both yield `false` for a concrete kdf. -/
theorem c10_verify_password_never_raises_witness :
    verifyPassword (fun _ _ => List.replicate 64 0) "pw" ":" = false
    ∧ verifyPassword (fun _ _ => List.replicate 64 0) "pw" "73616c74:ab" = false := by
  constructor
  · exact (c10_verify_password_never_raises (fun _ _ => List.replicate 64 0)
      "pw" ":").1 (by
        intro salt hash rest hh
        have e : splitColon ":" = ["", ""] := rfl
        rw [e] at hh
        injection hh with h1 h2
        exact Or.inl h1.symm)
  · exact (c10_verify_password_never_raises (fun _ _ => List.replicate 64 0)
      "pw" "73616c74:ab").2 "73616c74" "ab" [] rfl (by decide)

/-- C8 counterexample: the claimed acceptance condition fails in both
directions.  `httpx://example.com` parses under `new URL` (any valid
non-special scheme does) but is not an http/https URL, yet the create
route accepts it (zod `url()` admits any scheme and `Agent.validate`
only tests `startsWith("http")`); a two-space name and an empty model
satisfy every range the claim lists, yet the route rejects them. -/
theorem c8_claim_counterexample :
    createAgentRoute urlOkDemo dtoHttpx = .ok (applyCreateDefaults dtoHttpx)
    ∧ isHttpUrl urlOkDemo dtoHttpx.endpoint = false
    ∧ (∃ e, createAgentRoute urlOkDemo dtoBlankName = .error e)
    ∧ (2 ≤ dtoBlankName.name.length ∧ dtoBlankName.name.length ≤ 64
       ∧ isHttpUrl urlOkDemo dtoBlankName.endpoint = true)
    ∧ (∃ e, createAgentRoute urlOkDemo dtoEmptyModel = .error e)
    ∧ (2 ≤ dtoEmptyModel.name.length ∧ dtoEmptyModel.name.length ≤ 64
       ∧ isHttpUrl urlOkDemo dtoEmptyModel.endpoint = true) := by
  refine ⟨rfl, rfl, ⟨validationError "Agent name must be at least 2 characters", rfl⟩,
    by decide, ⟨validationError "Validation failed", rfl⟩, by decide⟩

/-- C8 (amended): agent creation and update reject with a
`VALIDATION_ERROR` exactly the configurations outside the enforced
conditions, and accept all others — for any verdict `urlOk` of the
platform WHATWG `new URL` constructor behind zod `url()`.  The enforced
conditions differ from the claim in three places: the endpoint must be a
`new URL`-accepted string starting with the characters `http` (the
scheme need not be http or https); the name must also be at least 2
characters after trimming; and the model must be non-blank. -/
theorem c8_ranges_enforced_amended (urlOk : String → Bool)
    (d : CreateAgentDto) (a : AgentConfig) (du : UpdateAgentDto) :
    (createAgentRoute urlOk d = .ok (applyCreateDefaults d)
      ↔ (2 ≤ d.name.length ∧ d.name.length ≤ 64
         ∧ 2 ≤ (jsTrim d.name).length
         ∧ urlOk d.endpoint = true
         ∧ leadingMatch d.endpoint.data "http".data = true
         ∧ 1 ≤ d.model.length ∧ (jsTrim d.model).length ≠ 0
         ∧ optOk d.maxTokens (fun v => 1 ≤ v ∧ v ≤ 200000)
         ∧ optOk d.temperature (fun v => 0 ≤ v ∧ v ≤ 2)
         ∧ optOk d.priority (fun v => 1 ≤ v ∧ v ≤ 10)
         ∧ optOk d.weight (fun v => 1 ≤ v ∧ v ≤ 100)))
    ∧ (∀ e, createAgentRoute urlOk d = .error e → e.code = "VALIDATION_ERROR")
    ∧ (updateAgentRoute urlOk a du = .ok (applyUpdate a du)
      ↔ (zodUpdateOk urlOk du
         ∧ (applyUpdate a du).name ≠ ""
         ∧ 2 ≤ (jsTrim (applyUpdate a du).name).length
         ∧ (applyUpdate a du).endpoint ≠ ""
         ∧ leadingMatch (applyUpdate a du).endpoint.data "http".data = true
         ∧ (applyUpdate a du).model ≠ ""
         ∧ (jsTrim (applyUpdate a du).model).length ≠ 0
         ∧ 0 ≤ (applyUpdate a du).temperature
         ∧ (applyUpdate a du).temperature ≤ 2
         ∧ 1 ≤ (applyUpdate a du).weight ∧ (applyUpdate a du).weight ≤ 100
         ∧ 1 ≤ (applyUpdate a du).priority
         ∧ (applyUpdate a du).priority ≤ 10))
    ∧ (∀ e, updateAgentRoute urlOk a du = .error e → e.code = "VALIDATION_ERROR") := by
  refine ⟨?_, ?_, ?_, ?_⟩
  · rw [createAgentRoute_ok_iff, agentValidate_ok_iff]
    unfold zodCreateOk
    simp only [applyCreateDefaults]
    rw [not_out_iff_optOk d.temperature 0 0 2 ⟨le_refl 0, by norm_num⟩,
      not_out_iff_optOk d.weight 10 1 100 ⟨by norm_num, by norm_num⟩,
      not_out_iff_optOk d.priority 5 1 10 ⟨by norm_num, by norm_num⟩]
    constructor
    · rintro ⟨⟨h₁, h₂, h₃, h₄, h₅, h₆, h₇, h₈⟩, hn, he, hm, hT, hW, hP⟩
      rw [not_or] at hn he hm
      refine ⟨h₁, h₂, by omega, h₃, ?_, h₄, hm.2, h₅, hT, hP, hW⟩
      cases hlm : leadingMatch d.endpoint.data "http".data with
      | true => rfl
      | false => exact absurd hlm he.2
    · rintro ⟨h₁, h₂, htr, h₃, hlm, h₄, hmt, h₅, hT, hP, hW⟩
      refine ⟨⟨h₁, h₂, h₃, h₄, h₅, hT, hP, hW⟩, ?_, ?_, ?_, hT, hW, hP⟩
      · rw [not_or]
        exact ⟨ne_empty_of_two_le_length h₁, by omega⟩
      · rw [not_or]
        refine ⟨?_, by rw [hlm]; decide⟩
        intro he
        rw [he] at hlm
        exact absurd hlm (by decide)
      · rw [not_or]
        refine ⟨?_, hmt⟩
        intro hm
        rw [hm] at h₄
        simp [String.length] at h₄
  · intro e h
    unfold createAgentRoute at h
    split_ifs at h with hz
    · cases hv : agentValidate (applyCreateDefaults d) with
      | error e₁ =>
        rw [hv] at h
        injection h with h₁
        rw [← h₁]
        exact agentValidate_error_code _ _ hv
      | ok u => rw [hv] at h; cases h
    · injection h with h₁
      rw [← h₁]
      rfl
  · rw [updateAgentRoute_ok_iff, agentValidate_ok_iff]
    constructor
    · rintro ⟨hz, hn, he, hm, ht, hw, hp⟩
      rw [not_or] at hn he hm
      rw [not_or, not_lt, not_lt] at ht hw hp
      refine ⟨hz, hn.1, by omega, he.1, ?_, hm.1, hm.2, ht.1, ht.2, hw.1,
        hw.2, hp.1, hp.2⟩
      cases hlm : leadingMatch (applyUpdate a du).endpoint.data "http".data with
      | true => rfl
      | false => exact absurd hlm he.2
    · rintro ⟨hz, hn, htr, he, hlm, hm, hmt, ht₁, ht₂, hw₁, hw₂, hp₁, hp₂⟩
      refine ⟨hz, ?_, ?_, ?_, ?_, ?_, ?_⟩
      · rw [not_or]; exact ⟨hn, by omega⟩
      · rw [not_or]
        exact ⟨he, by rw [hlm]; decide⟩
      · rw [not_or]; exact ⟨hm, hmt⟩
      · rw [not_or, not_lt, not_lt]; exact ⟨ht₁, ht₂⟩
      · rw [not_or, not_lt, not_lt]; exact ⟨hw₁, hw₂⟩
      · rw [not_or, not_lt, not_lt]; exact ⟨hp₁, hp₂⟩
  · intro e h
    unfold updateAgentRoute at h
    split_ifs at h with hz
    · cases hv : agentValidate (applyUpdate a du) with
      | error e₁ =>
        rw [hv] at h
        injection h with h₁
        rw [← h₁]
        exact agentValidate_error_code _ _ hv
      | ok u => rw [hv] at h; cases h
    · injection h with h₁
      rw [← h₁]
      rfl

/-- C8 witness: the amended characterization exercised at concrete
inputs — an accepted create, a rejected create carrying
`VALIDATION_ERROR`, an accepted update, and a rejected update carrying
`VALIDATION_ERROR`. -/
theorem c8_ranges_enforced_amended_witness :
    createAgentRoute urlOkDemo dtoHttpx = .ok (applyCreateDefaults dtoHttpx)
    ∧ (validationError "Agent name must be at least 2 characters").code
        = "VALIDATION_ERROR"
    ∧ updateAgentRoute urlOkDemo cfgExisting duRename
        = .ok (applyUpdate cfgExisting duRename)
    ∧ (validationError "Agent name must be at least 2 characters").code
        = "VALIDATION_ERROR" := by
  refine ⟨?_, ?_, ?_, ?_⟩
  · exact (c8_ranges_enforced_amended urlOkDemo dtoHttpx cfgExisting
      duRename).1.mpr (by decide)
  · exact (c8_ranges_enforced_amended urlOkDemo dtoBlankName cfgExisting
      duRename).2.1 (validationError "Agent name must be at least 2 characters")
      rfl
  · exact (c8_ranges_enforced_amended urlOkDemo dtoHttpx cfgExisting
      duRename).2.2.1.mpr (by decide)
  · exact (c8_ranges_enforced_amended urlOkDemo dtoHttpx cfgExisting
      duBlankName).2.2.2 (validationError "Agent name must be at least 2 characters")
      rfl

/-- Helper: decrementing an accumulator does not change the weights. -/
theorem decrementAt_map_fst (s : WrrState) :
    ∀ (b : ℕ) (t : ℤ), (decrementAt s b t).map Prod.fst = s.map Prod.fst := by
  induction s with
  | nil => intro b t; rfl
  | cons p r ih =>
    intro b t
    cases b with
    | zero => rfl
    | succ n => simp only [decrementAt, List.map_cons, ih]

/-- Helper: the increment does not change the weights. -/
theorem wrrIncrement_map_fst (s : WrrState) :
    (wrrIncrement s).map Prod.fst = s.map Prod.fst := by
  simp [wrrIncrement]

/-- Helper: one selection does not change the weights. -/
theorem wrrStep_map_fst (s : WrrState) :
    ((wrrStep s).2).map Prod.fst = s.map Prod.fst := by
  simp only [wrrStep, decrementAt_map_fst, wrrIncrement_map_fst]

/-- Helper: one selection does not change the total weight. -/
theorem totalWeight_wrrStep (s : WrrState) :
    totalWeight ((wrrStep s).2) = totalWeight s := by
  unfold totalWeight
  rw [wrrStep_map_fst]

/-- Helper: a run does not change the weights. -/
theorem wrrRun_map_fst (s : WrrState) :
    ∀ N, ((wrrRun s N).1).map Prod.fst = s.map Prod.fst := by
  intro N
  induction N with
  | zero => rfl
  | succ n ih =>
    show ((wrrStep (wrrRun s n).1).2).map Prod.fst = _
    rw [wrrStep_map_fst, ih]

/-- Helper: the scan value only grows. -/
theorem bestScan_le (l : List ℤ) :
    ∀ i bi bv, bv ≤ (bestScan i bi bv l).2 := by
  induction l with
  | nil => intro i bi bv; exact le_refl _
  | cons v r ih =>
    intro i bi bv
    simp only [bestScan]
    by_cases h : bv < v
    · rw [if_pos h]
      exact le_trans (le_of_lt h) (ih (i + 1) i v)
    · rw [if_neg h]
      exact ih (i + 1) bi bv

/-- Helper: the scan value dominates every scanned element. -/
theorem bestScan_all (l : List ℤ) :
    ∀ i bi bv v, v ∈ l → v ≤ (bestScan i bi bv l).2 := by
  induction l with
  | nil => intro _ _ _ v hv; exact absurd hv (by simp)
  | cons x r ih =>
    intro i bi bv v hv
    simp only [bestScan]
    rcases List.mem_cons.mp hv with hvx | hv'
    · by_cases h : bv < x
      · rw [if_pos h, hvx]
        exact bestScan_le r (i + 1) i x
      · rw [if_neg h, hvx]
        exact le_trans (not_lt.mp h) (bestScan_le r (i + 1) bi bv)
    · by_cases h : bv < x
      · rw [if_pos h]
        exact ih (i + 1) i x v hv'
      · rw [if_neg h]
        exact ih (i + 1) bi bv v hv'

/-- Helper: the scan result is either the seed or an element of the
scanned list together with its absolute index. -/
theorem bestScan_origin (l : List ℤ) :
    ∀ i bi bv,
      ((bestScan i bi bv l).1 = bi ∧ (bestScan i bi bv l).2 = bv)
      ∨ (∃ j, ∃ (h : j < l.length),
          (bestScan i bi bv l).1 = i + j
          ∧ (bestScan i bi bv l).2 = l.get ⟨j, h⟩) := by
  induction l with
  | nil => intro i bi bv; left; exact ⟨rfl, rfl⟩
  | cons x r ih =>
    intro i bi bv
    simp only [bestScan]
    by_cases h : bv < x
    · rw [if_pos h]
      rcases ih (i + 1) i x with ⟨h₁, h₂⟩ | ⟨j, hj, h₁, h₂⟩
      · right
        exact ⟨0, by simp, by rw [h₁]; omega, by rw [h₂]; rfl⟩
      · right
        refine ⟨j + 1, by simp; omega, by rw [h₁]; omega, by rw [h₂]; rfl⟩
    · rw [if_neg h]
      rcases ih (i + 1) bi bv with ⟨h₁, h₂⟩ | ⟨j, hj, h₁, h₂⟩
      · left; exact ⟨h₁, h₂⟩
      · right
        refine ⟨j + 1, by simp; omega, by rw [h₁]; omega, by rw [h₂]; rfl⟩

/-- Helper: on a non-empty list the selected index is in range. -/
theorem bestOf_lt_length {l : List ℤ} (hl : l ≠ []) :
    (bestOf l).1 < l.length := by
  cases l with
  | nil => exact absurd rfl hl
  | cons v r =>
    show (bestScan 1 0 v r).1 < r.length + 1
    rcases bestScan_origin r 1 0 v with ⟨h₁, _⟩ | ⟨j, hj, h₁, _⟩
    · omega
    · omega

/-- Helper: the value at the selected index is the scan value. -/
theorem bestOf_get {l : List ℤ} (hl : l ≠ [])
    (h : (bestOf l).1 < l.length) :
    l.get ⟨(bestOf l).1, h⟩ = (bestOf l).2 := by
  cases l with
  | nil => exact absurd rfl hl
  | cons v r =>
    show (v :: r).get ⟨(bestScan 1 0 v r).1, _⟩ = (bestScan 1 0 v r).2
    rcases bestScan_origin r 1 0 v with ⟨h₁, h₂⟩ | ⟨j, hj, h₁, h₂⟩
    · rw [h₂]
      have he : (⟨(bestScan 1 0 v r).1, h⟩ :
          Fin (v :: r).length) = ⟨0, by simp⟩ := by
        apply Fin.ext
        exact h₁
      rw [he]
      rfl
    · rw [h₂]
      have he : (⟨(bestScan 1 0 v r).1, h⟩ :
          Fin (v :: r).length) = ⟨j + 1, by simp; omega⟩ := by
        apply Fin.ext
        show (bestScan 1 0 v r).1 = j + 1
        omega
      rw [he]
      rfl

/-- Helper: the scan value dominates every element of the list. -/
theorem bestOf_max {l : List ℤ} : ∀ v ∈ l, v ≤ (bestOf l).2 := by
  cases l with
  | nil => intro v hv; exact absurd hv (by simp)
  | cons x r =>
    intro v hv
    show v ≤ (bestScan 1 0 x r).2
    rcases List.mem_cons.mp hv with hvx | hv'
    · rw [hvx]
      exact bestScan_le r 1 0 x
    · exact bestScan_all r 1 0 x v hv'

/-- Helper: length is preserved by the decrement. -/
theorem decrementAt_length (s : WrrState) (b : ℕ) (t : ℤ) :
    (decrementAt s b t).length = s.length := by
  have h := congrArg List.length (decrementAt_map_fst s b t)
  simpa using h

/-- Helper: length is preserved by the increment. -/
theorem wrrIncrement_length (s : WrrState) :
    (wrrIncrement s).length = s.length := by
  simp [wrrIncrement]

/-- Helper: length is preserved by one selection. -/
theorem wrrStep_length (s : WrrState) :
    ((wrrStep s).2).length = s.length := by
  have h := congrArg List.length (wrrStep_map_fst s)
  simpa using h

/-- Helper: length is preserved by a run. -/
theorem wrrRun_length (s : WrrState) (N : ℕ) :
    ((wrrRun s N).1).length = s.length := by
  have h := congrArg List.length (wrrRun_map_fst s N)
  simpa using h

/-- Helper: the increment adds the total weight to the accumulator sum. -/
theorem sum_snd_wrrIncrement (s : WrrState) :
    ((wrrIncrement s).map Prod.snd).sum
      = (s.map Prod.snd).sum + (totalWeight s : ℤ) := by
  induction s with
  | nil => simp [wrrIncrement, totalWeight]
  | cons p r ih =>
    simp only [wrrIncrement, totalWeight, List.map_cons, List.sum_cons] at ih ⊢
    push_cast at ih ⊢
    linarith

/-- Helper: the decrement subtracts `t` from the accumulator sum when the
index is in range. -/
theorem sum_snd_decrementAt (s : WrrState) :
    ∀ (b : ℕ) (t : ℤ), b < s.length →
      ((decrementAt s b t).map Prod.snd).sum = (s.map Prod.snd).sum - t := by
  induction s with
  | nil => intro b t hb; exact absurd hb (by simp)
  | cons p r ih =>
    intro b t hb
    cases b with
    | zero =>
      simp only [decrementAt, List.map_cons, List.sum_cons]
      ring
    | succ n =>
      simp only [decrementAt, List.map_cons, List.sum_cons,
        ih n t (by simpa using hb)]
      ring

/-- Helper: entry of the incremented cache. -/
theorem get_wrrIncrement (s : WrrState) (i : ℕ)
    (h₁ : i < (wrrIncrement s).length) (h₂ : i < s.length) :
    (wrrIncrement s).get ⟨i, h₁⟩
      = ((s.get ⟨i, h₂⟩).1, (s.get ⟨i, h₂⟩).2 + ((s.get ⟨i, h₂⟩).1 : ℤ)) := by
  simp [wrrIncrement, List.get_eq_getElem, List.getElem_map]

/-- Helper: entry of the decremented cache. -/
theorem get_decrementAt (s : WrrState) :
    ∀ (b : ℕ) (t : ℤ) (i : ℕ) (h₁ : i < (decrementAt s b t).length)
      (h₂ : i < s.length),
      (decrementAt s b t).get ⟨i, h₁⟩
        = if i = b then ((s.get ⟨i, h₂⟩).1, (s.get ⟨i, h₂⟩).2 - t)
          else s.get ⟨i, h₂⟩ := by
  induction s with
  | nil => intro b t i h₁ h₂; exact absurd h₂ (by simp)
  | cons p r ih =>
    intro b t i h₁ h₂
    cases b with
    | zero =>
      cases i with
      | zero => simp [decrementAt]
      | succ m => simp [decrementAt]
    | succ n =>
      cases i with
      | zero => simp [decrementAt]
      | succ m =>
        have h₁' : m < (decrementAt r n t).length := by
          simpa [decrementAt] using h₁
        have h₂' : m < r.length := by simpa using h₂
        show (decrementAt r n t).get ⟨m, h₁'⟩ = _
        rw [ih n t m h₁' h₂']
        by_cases hmn : m = n
        · rw [if_pos hmn, if_pos (by omega)]
          rfl
        · rw [if_neg hmn, if_neg (by omega)]
          rfl

/-- Helper: the selected index of a non-empty cache is in range. -/
theorem wrrStep_sel_lt (s : WrrState) (hs : s ≠ []) :
    (wrrStep s).1 < s.length := by
  show (bestOf ((wrrIncrement s).map Prod.snd)).1 < s.length
  have hne : (wrrIncrement s).map Prod.snd ≠ [] := by
    intro h
    have hlen := congrArg List.length h
    simp [wrrIncrement] at hlen
    exact hs hlen
  have := bestOf_lt_length hne
  simpa [wrrIncrement] using this

/-- Helper: entry of the cache after one selection — the winner is
incremented then decremented by the total, every other entry is only
incremented. -/
theorem wrrStep_get (s : WrrState) (i : ℕ)
    (h₁ : i < ((wrrStep s).2).length) (h₂ : i < s.length) :
    ((wrrStep s).2).get ⟨i, h₁⟩
      = (if i = (wrrStep s).1 then
          ((s.get ⟨i, h₂⟩).1,
            (s.get ⟨i, h₂⟩).2 + ((s.get ⟨i, h₂⟩).1 : ℤ) - (totalWeight s : ℤ))
         else
          ((s.get ⟨i, h₂⟩).1,
            (s.get ⟨i, h₂⟩).2 + ((s.get ⟨i, h₂⟩).1 : ℤ))) := by
  have h₃ : i < (wrrIncrement s).length := by
    rw [wrrIncrement_length]; exact h₂
  show (decrementAt (wrrIncrement s) _ _).get ⟨i, h₁⟩ = _
  rw [get_decrementAt (wrrIncrement s) _ _ i h₁ h₃,
    get_wrrIncrement s i h₃ h₂]
  rfl

/-- Helper: the winner accumulator value after incrementing is the best
value, which dominates all incremented accumulators. -/
theorem wrrStep_best_value (s : WrrState) (hs : s ≠ [])
    (h₂ : (wrrStep s).1 < s.length) :
    ((wrrIncrement s).map Prod.snd).get
        ⟨(wrrStep s).1, by simpa [wrrIncrement] using h₂⟩
      = (bestOf ((wrrIncrement s).map Prod.snd)).2 := by
  have hne : (wrrIncrement s).map Prod.snd ≠ [] := by
    intro h
    have hlen := congrArg List.length h
    simp [wrrIncrement] at hlen
    exact hs hlen
  exact bestOf_get hne _

/-- Helper: a non-empty cache with positive weights has positive total
weight. -/
theorem one_le_totalWeight (s : WrrState) (hs : s ≠ [])
    (hw : ∀ p ∈ s, 1 ≤ p.1) : 1 ≤ totalWeight s := by
  cases s with
  | nil => exact absurd rfl hs
  | cons p r =>
    have := hw p (List.mem_cons_self p r)
    simp only [totalWeight, List.map_cons, List.sum_cons]
    omega

/-- Helper: the selected index is the first argmax of the incremented
accumulators. -/
theorem wrrStep_sel_eq (s : WrrState) :
    (wrrStep s).1 = (bestOf ((wrrIncrement s).map Prod.snd)).1 := rfl

/-- Helper: a list of non-positive integers has non-positive sum. -/
theorem list_sum_nonpos :
    ∀ (l : List ℤ), (∀ x ∈ l, x ≤ 0) → l.sum ≤ 0 := by
  intro l
  induction l with
  | nil => intro _; simp
  | cons x r ih =>
    intro h
    have hx := h x (List.mem_cons_self x r)
    have hr := ih (fun y hy => h y (List.mem_cons_of_mem _ hy))
    simp only [List.sum_cons]
    omega

/-- Helper: the incremented accumulator list is non-empty for a
non-empty cache. -/
theorem wrrIncrement_snd_ne_nil (s : WrrState) (hs : s ≠ []) :
    (wrrIncrement s).map Prod.snd ≠ [] := by
  intro h
  have := congrArg List.length h
  simp [wrrIncrement] at this
  exact hs this

/-- Helper: the smooth-WRR invariant is preserved by one selection. -/
theorem wrrInv_step (s : WrrState) (hw : ∀ p ∈ s, 1 ≤ p.1)
    (hinv : wrrInv s) : wrrInv ((wrrStep s).2) := by
  by_cases hs : s = []
  · rw [hs]
    exact ⟨rfl, by
      intro p hp
      exact absurd hp (by simp [wrrStep, wrrIncrement, decrementAt])⟩
  obtain ⟨hsum, hbound⟩ := hinv
  have hself : (wrrStep s).1 < s.length := wrrStep_sel_lt s hs
  have htot : 1 ≤ totalWeight s := one_le_totalWeight s hs hw
  have hne : (wrrIncrement s).map Prod.snd ≠ [] := wrrIncrement_snd_ne_nil s hs
  constructor
  · show ((decrementAt (wrrIncrement s) _ _).map Prod.snd).sum = 0
    rw [sum_snd_decrementAt (wrrIncrement s) _ _
      (by rw [wrrIncrement_length]; exact hself)]
    rw [sum_snd_wrrIncrement, hsum]
    ring
  · intro p hp
    rw [totalWeight_wrrStep]
    obtain ⟨⟨i, hlen⟩, hget⟩ := List.mem_iff_get.mp hp
    have h₂ : i < s.length := by
      rw [wrrStep_length] at hlen
      exact hlen
    rw [← hget, wrrStep_get s i hlen h₂]
    by_cases hib : i = (wrrStep s).1
    · rw [if_pos hib]
      show -(((totalWeight s : ℕ) : ℤ)) <
        (s.get ⟨i, h₂⟩).2 + ((s.get ⟨i, h₂⟩).1 : ℤ) - (totalWeight s : ℤ)
      have hpos : 0 < (bestOf ((wrrIncrement s).map Prod.snd)).2 := by
        have hsum_inc : ((wrrIncrement s).map Prod.snd).sum
            = (totalWeight s : ℤ) := by
          rw [sum_snd_wrrIncrement, hsum]
          ring
        by_contra hnp
        push_neg at hnp
        have hall : ∀ v ∈ (wrrIncrement s).map Prod.snd, v ≤ 0 := by
          intro v hv
          exact le_trans (bestOf_max v hv) hnp
        have hle := list_sum_nonpos _ hall
        rw [hsum_inc] at hle
        have : (1 : ℤ) ≤ 0 := le_trans (by exact_mod_cast htot) hle
        omega
      have hkey : (s.get ⟨i, h₂⟩).2 + ((s.get ⟨i, h₂⟩).1 : ℤ)
          = (bestOf ((wrrIncrement s).map Prod.snd)).2 := by
        have hmem₃ : i < ((wrrIncrement s).map Prod.snd).length := by
          simpa [wrrIncrement] using h₂
        have hgv : ((wrrIncrement s).map Prod.snd).get ⟨i, hmem₃⟩
            = (s.get ⟨i, h₂⟩).2 + ((s.get ⟨i, h₂⟩).1 : ℤ) := by
          simp [wrrIncrement, List.get_eq_getElem, List.getElem_map]
        have hlt : (bestOf ((wrrIncrement s).map Prod.snd)).1
            < ((wrrIncrement s).map Prod.snd).length := bestOf_lt_length hne
        have hbo := bestOf_get hne hlt
        rw [← hgv]
        have hidx : (⟨i, hmem₃⟩ : Fin ((wrrIncrement s).map Prod.snd).length)
            = ⟨(bestOf ((wrrIncrement s).map Prod.snd)).1, hlt⟩ := by
          apply Fin.ext
          show i = _
          rw [hib, wrrStep_sel_eq]
        rw [hidx]
        exact hbo
      rw [hkey]
      omega
    · rw [if_neg hib]
      have hmem : s.get ⟨i, h₂⟩ ∈ s := List.get_mem s i h₂
      have h₁ := hbound _ hmem
      have h₂w : (0 : ℤ) ≤ ((s.get ⟨i, h₂⟩).1 : ℤ) := by positivity
      show -(((totalWeight s : ℕ) : ℤ)) <
        (s.get ⟨i, h₂⟩).2 + ((s.get ⟨i, h₂⟩).1 : ℤ)
      omega

/-- Helper: a non-empty list of positive naturals has positive sum. -/
theorem one_le_sum_of_ne_nil (w : List ℕ) (hne : w ≠ [])
    (hw : ∀ x ∈ w, 1 ≤ x) : 1 ≤ w.sum := by
  cases w with
  | nil => exact absurd rfl hne
  | cons x r =>
    have := hw x (List.mem_cons_self x r)
    simp only [List.sum_cons]
    omega

/-- Helper: total weight of the initial cache. -/
theorem totalWeight_wrrInit (w : List ℕ) : totalWeight (wrrInit w) = w.sum := by
  simp [totalWeight, wrrInit, Function.comp_def]

/-- Helper: the invariant holds initially. -/
theorem wrrInit_inv (w : List ℕ) (hw : ∀ x ∈ w, 1 ≤ x) (hne : w ≠ []) :
    wrrInv (wrrInit w) := by
  constructor
  · simp [wrrInit, Function.comp_def]
  · intro p hp
    simp only [wrrInit, List.mem_map] at hp
    obtain ⟨x, hx, hpx⟩ := hp
    rw [← hpx]
    rw [totalWeight_wrrInit]
    have := one_le_sum_of_ne_nil w hne hw
    show -((w.sum : ℕ) : ℤ) < 0
    omega

/-- Helper: the weights of the run state are the configured weights. -/
theorem wrrRun_weights (w : List ℕ) (N : ℕ) :
    ((wrrRun (wrrInit w) N).1).map Prod.fst = w := by
  rw [wrrRun_map_fst]
  simp [wrrInit, Function.comp_def]

/-- Helper: every entry of the run state has positive weight. -/
theorem wrrRun_hw (w : List ℕ) (hw : ∀ x ∈ w, 1 ≤ x) (N : ℕ) :
    ∀ p ∈ (wrrRun (wrrInit w) N).1, 1 ≤ p.1 := by
  intro p hp
  have hmem : p.1 ∈ ((wrrRun (wrrInit w) N).1).map Prod.fst :=
    List.mem_map_of_mem Prod.fst hp
  rw [wrrRun_weights] at hmem
  exact hw _ hmem

/-- Helper: the invariant holds after any number of selections. -/
theorem wrrRun_inv (w : List ℕ) (hw : ∀ x ∈ w, 1 ≤ x) (hne : w ≠ [])
    (N : ℕ) : wrrInv ((wrrRun (wrrInit w) N).1) := by
  induction N with
  | zero => exact wrrInit_inv w hw hne
  | succ n ih =>
    show wrrInv ((wrrStep (wrrRun (wrrInit w) n).1).2)
    exact wrrInv_step _ (wrrRun_hw w hw n) ih

/-- Helper: total weight of the run state. -/
theorem totalWeight_wrrRun (w : List ℕ) (N : ℕ) :
    totalWeight ((wrrRun (wrrInit w) N).1) = w.sum := by
  unfold totalWeight
  rw [wrrRun_weights]

/-- Helper: one more selection adds one to the winner count. -/
theorem selCount_succ (w : List ℕ) (i N : ℕ) :
    selCount w i (N + 1)
      = selCount w i N
        + (if (wrrStep (wrrRun (wrrInit w) N).1).1 = i then 1 else 0) := by
  unfold selCount
  show ((wrrRun (wrrInit w) N).2
      ++ [(wrrStep (wrrRun (wrrInit w) N).1).1]).count i = _
  rw [List.count_append]
  by_cases hbi : (wrrStep (wrrRun (wrrInit w) N).1).1 = i
  · rw [if_pos hbi, hbi]
    simp
  · rw [if_neg hbi]
    have hnm : i ∉ [(wrrStep (wrrRun (wrrInit w) N).1).1] := by
      intro hmem
      rw [List.mem_singleton] at hmem
      exact hbi hmem.symm
    rw [List.count_eq_zero.mpr hnm]

/-- Helper: first component of an entry given the projected weights. -/
theorem get_fst_of_map_fst_eq :
    ∀ (s : WrrState) (w : List ℕ), s.map Prod.fst = w →
      ∀ (i : ℕ) (h₁ : i < s.length) (h₂ : i < w.length),
        (s.get ⟨i, h₁⟩).1 = w.get ⟨i, h₂⟩ := by
  intro s
  induction s with
  | nil => intro w hmf i h₁ h₂; exact absurd h₁ (by simp)
  | cons p r ih =>
    intro w hmf i h₁ h₂
    cases w with
    | nil => exact absurd hmf (by simp)
    | cons x t =>
      rw [List.map_cons, List.cons.injEq] at hmf
      cases i with
      | zero => exact hmf.1
      | succ m =>
        exact ih t hmf.2 m (by simpa using h₁) (by simpa using h₂)

/-- Helper: accumulator formula — after `N` selections, agent `i`'s
accumulator equals `N·wᵢ − cᵢ·Σw`. -/
theorem wrr_formula (w : List ℕ) (i : ℕ) (hi : i < w.length) :
    ∀ (N : ℕ) (hN : i < ((wrrRun (wrrInit w) N).1).length),
      (((wrrRun (wrrInit w) N).1).get ⟨i, hN⟩).2
        = (N : ℤ) * ((w.get ⟨i, hi⟩ : ℕ) : ℤ)
          - (selCount w i N : ℤ) * ((w.sum : ℕ) : ℤ) := by
  intro N
  induction N with
  | zero =>
    intro hN
    show ((wrrInit w).get ⟨i, hN⟩).2 = _
    have : selCount w i 0 = 0 := rfl
    rw [this]
    simp [wrrInit, List.get_eq_getElem, List.getElem_map]
  | succ n ih =>
    intro hN
    have hlen_i : i < ((wrrRun (wrrInit w) n).1).length := by
      rw [wrrRun_length]
      rw [wrrRun_length] at hN
      exact hN
    have hfst : (((wrrRun (wrrInit w) n).1).get ⟨i, hlen_i⟩).1
        = w.get ⟨i, hi⟩ :=
      get_fst_of_map_fst_eq _ w (wrrRun_weights w n) i hlen_i hi
    have hcw := ih hlen_i
    show (((wrrStep (wrrRun (wrrInit w) n).1).2).get ⟨i, hN⟩).2 = _
    rw [wrrStep_get _ i hN hlen_i, selCount_succ w i n]
    by_cases hib : i = (wrrStep (wrrRun (wrrInit w) n).1).1
    · rw [if_pos hib, if_pos hib.symm]
      show (((wrrRun (wrrInit w) n).1).get ⟨i, hlen_i⟩).2
          + ((((wrrRun (wrrInit w) n).1).get ⟨i, hlen_i⟩).1 : ℤ)
          - (totalWeight ((wrrRun (wrrInit w) n).1) : ℤ) = _
      rw [hcw, hfst, totalWeight_wrrRun]
      push_cast
      ring
    · rw [if_neg hib, if_neg (fun h => hib h.symm)]
      show (((wrrRun (wrrInit w) n).1).get ⟨i, hlen_i⟩).2
          + ((((wrrRun (wrrInit w) n).1).get ⟨i, hlen_i⟩).1 : ℤ) = _
      rw [hcw, hfst]
      push_cast
      ring

/-- Helper: a list of integers each above `-t` has sum at least
`-(length·t)`. -/
theorem sum_ge_of_forall_gt (l : List ℤ) (t : ℤ)
    (h : ∀ x ∈ l, -t < x) : -((l.length : ℤ) * t) ≤ l.sum := by
  induction l with
  | nil => simp
  | cons x r ih =>
    have hx := h x (List.mem_cons_self x r)
    have hr := ih (fun y hy => h y (List.mem_cons_of_mem _ hy))
    simp only [List.length_cons, List.sum_cons]
    push_cast
    linarith

/-- Helper: in a zero-sum list with every element above `-t`, each
element is at most `(length − 1)·t`. -/
theorem elem_le_of_sum_zero (l : List ℤ) (t : ℤ) (hsum : l.sum = 0)
    (hb : ∀ x ∈ l, -t < x) (a : ℤ) (ha : a ∈ l) :
    a ≤ ((l.length : ℤ) - 1) * t := by
  have hperm : List.Perm l (a :: l.erase a) := List.perm_cons_erase ha
  have hsum2 : a + (l.erase a).sum = 0 := by
    have := hperm.sum_eq
    rw [hsum] at this
    simpa using this.symm
  have hlen1 : 1 ≤ l.length := List.length_pos.mpr (List.ne_nil_of_mem ha)
  have hlenerase : (l.erase a).length = l.length - 1 :=
    List.length_erase_of_mem ha
  have hball : ∀ x ∈ l.erase a, -t < x :=
    fun x hx => hb x (List.mem_of_mem_erase hx)
  have hge := sum_ge_of_forall_gt (l.erase a) t hball
  rw [hlenerase] at hge
  rw [Nat.cast_sub hlen1] at hge
  push_cast at hge
  linarith

/-- Helper: integer deviation bound — the selection counts stay within
`length·Σw` of the ideal proportional share. -/
theorem wrr_deviation (w : List ℕ) (hw : ∀ x ∈ w, 1 ≤ x) (hne : w ≠ [])
    (i : ℕ) (hi : i < w.length) (N : ℕ) :
    |(N : ℤ) * ((w.get ⟨i, hi⟩ : ℕ) : ℤ)
        - (selCount w i N : ℤ) * ((w.sum : ℕ) : ℤ)|
      ≤ ((w.length : ℕ) : ℤ) * ((w.sum : ℕ) : ℤ) := by
  obtain ⟨hsum, hb⟩ := wrrRun_inv w hw hne N
  have hlen_i : i < ((wrrRun (wrrInit w) N).1).length := by
    rw [wrrRun_length]
    simpa [wrrInit] using hi
  have hform := wrr_formula w i hi N hlen_i
  rw [← hform]
  set s := (wrrRun (wrrInit w) N).1 with hs
  have hts : totalWeight s = w.sum := totalWeight_wrrRun w N
  have hcmem : (s.get ⟨i, hlen_i⟩).2 ∈ s.map Prod.snd := by
    apply List.mem_map_of_mem Prod.snd
    exact List.get_mem s i hlen_i
  have hball : ∀ x ∈ s.map Prod.snd, -((w.sum : ℕ) : ℤ) < x := by
    intro x hx
    obtain ⟨p, hp, hpx⟩ := List.mem_map.mp hx
    rw [← hpx]
    have := hb p hp
    rw [hts] at this
    exact this
  have hupper := elem_le_of_sum_zero (s.map Prod.snd)
    ((w.sum : ℕ) : ℤ) hsum hball _ hcmem
  have hlower : -((w.sum : ℕ) : ℤ) < (s.get ⟨i, hlen_i⟩).2 :=
    hball _ hcmem
  have hlen_eq : (s.map Prod.snd).length = w.length := by
    have := congrArg List.length (wrrRun_weights w N)
    simp only [List.length_map] at this ⊢
    rw [← hs] at this
    exact this
  rw [hlen_eq] at hupper
  have hW : 1 ≤ w.sum := one_le_sum_of_ne_nil w hne hw
  have hL : 1 ≤ w.length := List.length_pos.mpr hne
  rw [abs_le]
  constructor
  · have hWc : (1 : ℤ) ≤ ((w.sum : ℕ) : ℤ) := by exact_mod_cast hW
    have hLc : (1 : ℤ) ≤ ((w.length : ℕ) : ℤ) := by exact_mod_cast hL
    nlinarith
  · have hWc : (0 : ℤ) ≤ ((w.sum : ℕ) : ℤ) := by positivity
    nlinarith

/-- C4: over `N` selections of the smooth weighted round-robin on a
stable set with weights `w`, agent `i`'s share of selections is within
`length w / N` of `wᵢ / Σw` — so the shares converge to the weight
ratios as `N` grows and the deviation from the ideal share stays bounded
by a constant number of selections (no long runs); moreover once
`N·wᵢ > length w · Σw`, agent `i` has been selected at least once (no
starvation). -/
theorem c4_weighted_round_robin_shares (w : List ℕ)
    (hw : ∀ x ∈ w, 1 ≤ x) (hne : w ≠ []) (i : ℕ) (hi : i < w.length)
    (N : ℕ) (hN : 1 ≤ N) :
    |(selCount w i N : ℚ) / (N : ℚ)
        - ((w.get ⟨i, hi⟩ : ℕ) : ℚ) / ((w.sum : ℕ) : ℚ)|
      ≤ ((w.length : ℕ) : ℚ) / (N : ℚ)
    ∧ (((w.length : ℕ) : ℤ) * ((w.sum : ℕ) : ℤ)
          < (N : ℤ) * ((w.get ⟨i, hi⟩ : ℕ) : ℤ)
        → 0 < selCount w i N) := by
  have hdev := wrr_deviation w hw hne i hi N
  have hW : 1 ≤ w.sum := one_le_sum_of_ne_nil w hne hw
  obtain ⟨W, hWdef⟩ : ∃ x, w.sum = x := ⟨_, rfl⟩
  obtain ⟨L, hLdef⟩ : ∃ x, w.length = x := ⟨_, rfl⟩
  obtain ⟨c, hcdef⟩ : ∃ x, selCount w i N = x := ⟨_, rfl⟩
  obtain ⟨g, hgdef⟩ : ∃ x, w.get ⟨i, hi⟩ = x := ⟨_, rfl⟩
  rw [hWdef] at hW
  rw [hgdef, hcdef, hWdef, hLdef] at hdev
  rw [hgdef, hcdef, hWdef, hLdef]
  constructor
  · have hN0 : (0 : ℚ) < (N : ℚ) := by exact_mod_cast hN
    have hW0 : (0 : ℚ) < ((W : ℕ) : ℚ) := by exact_mod_cast hW
    rw [div_sub_div _ _ (ne_of_gt hN0) (ne_of_gt hW0), abs_div,
      abs_of_pos (mul_pos hN0 hW0), div_le_div_iff₀ (mul_pos hN0 hW0) hN0]
    have hdevQ : |(c : ℚ) * ((W : ℕ) : ℚ) - (N : ℚ) * ((g : ℕ) : ℚ)|
        ≤ ((L : ℕ) : ℚ) * ((W : ℕ) : ℚ) := by
      rw [abs_sub_comm]
      exact_mod_cast hdev
    calc |(c : ℚ) * ((W : ℕ) : ℚ) - (N : ℚ) * ((g : ℕ) : ℚ)| * (N : ℚ)
        ≤ (((L : ℕ) : ℚ) * ((W : ℕ) : ℚ)) * (N : ℚ) :=
          mul_le_mul_of_nonneg_right hdevQ (le_of_lt hN0)
      _ = ((L : ℕ) : ℚ) * ((N : ℚ) * ((W : ℕ) : ℚ)) := by ring
  · intro hlt
    by_contra hcon
    push_neg at hcon
    have hc0 : c = 0 := by omega
    have hcz : ((c : ℕ) : ℤ) = 0 := by exact_mod_cast hc0
    rw [hcz, zero_mul, sub_zero] at hdev
    rw [abs_of_nonneg (by positivity)] at hdev
    linarith

/-- C4 witness: three agents with weights 5, 3 and 2 over ten
selections — the first agent's share deviates from 1/2 by at most 3/10,
and it has been selected at least once. -/
theorem c4_weighted_round_robin_shares_witness :
    |(selCount [5, 3, 2] 0 10 : ℚ) / (10 : ℚ)
        - ((([5, 3, 2].get ⟨0, by decide⟩ : ℕ)) : ℚ) / (([5, 3, 2].sum : ℕ) : ℚ)|
      ≤ ((([5, 3, 2] : List ℕ).length : ℕ) : ℚ) / (10 : ℚ)
    ∧ ((([5, 3, 2] : List ℕ).length : ℤ) * (([5, 3, 2].sum : ℕ) : ℤ)
          < ((10 : ℕ) : ℤ) * ((([5, 3, 2].get ⟨0, by decide⟩ : ℕ)) : ℤ)
        → 0 < selCount [5, 3, 2] 0 10) :=
  c4_weighted_round_robin_shares [5, 3, 2] (by decide) (by decide) 0
    (by decide) 10 (by decide)

end PeanutAgent
